import Mathlib

set_option linter.unusedVariables false

namespace DataMimic

/-!
Shallow embedding of the DataMimic JS fallback path (CSV parsing, schema
analysis, the controlled fallback generator of `/api/generate_controlled`,
and the fallback evaluator `jsEvaluate`).

JS numbers are modelled as `ℚ`; `Number(s)` is modelled for decimal
literals (the only literals the code ever produces or consumes here);
a JS `undefined` cell (a row shorter than the header list) is modelled
as `Option.none`; `Math.random()` draws are modelled as an injected
stream `g : Nat → ℚ` consumed left to right.
-/

set_option maxRecDepth 4000 in
/-- A JS value that can end up stored in a synthesized row record:
a string, a number (written by the numeric branch before `String(...)`
stringification), or `undefined`. -/
inductive JSVal where
  | str (s : String)
  | num (q : ℚ)
  | undefVal
deriving DecidableEq

/-- `l.split(sep)` for a single-character separator, on character lists. -/
def chSplit (sep : Char) : List Char → List (List Char)
  | [] => [[]]
  | c :: rest =>
    match chSplit sep rest with
    | [] => [[]]
    | h :: t => if c = sep then [] :: h :: t else (c :: h) :: t

/-- JS `String.prototype.trim()` on character lists. -/
def jsTrim (l : List Char) : List Char :=
  ((l.dropWhile Char.isWhitespace).reverse.dropWhile Char.isWhitespace).reverse

/-- Remove one trailing carriage return, if present. -/
def stripCR (l : List Char) : List Char :=
  if l.getLast? = some '\r' then l.dropLast else l

/-- `csv.trim().split(/\r?\n/)`: on input whose end is already trimmed,
splitting on the regex `\r?\n` is splitting on `'\n'` and then stripping
one trailing `'\r'` from each piece. -/
def jsLines (csv : String) : List (List Char) :=
  (chSplit '\n' (jsTrim csv.data)).map stripCR

/-- Value of a digit string, most significant first. -/
def digitsVal (ds : List Char) : Nat :=
  ds.foldl (fun n c => 10 * n + (c.toNat - 48)) 0

/-- Rational value of `ip.fp` (integer part, fractional part). -/
def decToRat (ip fp : List Char) : ℚ :=
  (digitsVal ip : ℚ) + (digitsVal fp : ℚ) / (10 : ℚ) ^ fp.length

/-- Unsigned decimal literal: digits, optionally a dot and more digits,
with at least one digit overall. -/
def decLiteral (l : List Char) : Option ℚ :=
  let ip := l.takeWhile Char.isDigit
  let rest := l.dropWhile Char.isDigit
  match rest with
  | [] => if ip.isEmpty then none else some (digitsVal ip : ℚ)
  | '.' :: fp =>
    if fp.all Char.isDigit && !(ip.isEmpty && fp.isEmpty) then some (decToRat ip fp)
    else none
  | _ => none

/-- JS `Number(s)` on the decimal literals this code produces and
consumes; `none` models `NaN`. -/
def jsNumber (s : String) : Option ℚ :=
  match s.data with
  | '-' :: rest => (decLiteral rest).map Neg.neg
  | '+' :: rest => decLiteral rest
  | l => decLiteral l

/-- `Number(v)` on a possibly-`undefined` cell: `Number(undefined)` is `NaN`. -/
def numOf (v : Option String) : Option ℚ := v.bind jsNumber

/-- Helper for `jsUniq`: keep elements not seen before, in order. -/
def jsUniqAux {α : Type} [DecidableEq α] (seen : List α) : List α → List α
  | [] => []
  | a :: l => if a ∈ seen then jsUniqAux seen l else a :: jsUniqAux (a :: seen) l

/-- `Array.from(new Set(l))`: distinct elements, first occurrence order. -/
def jsUniq {α : Type} [DecidableEq α] (l : List α) : List α := jsUniqAux [] l

/-- `headers.indexOf(x)` (only ever used when `x` is present). -/
def idxOf (x : String) : List String → Nat
  | [] => 0
  | h :: t => if h = x then 0 else idxOf x t + 1

/-- `arr.join(sep)`. -/
def jsJoin (sep : String) : List String → String
  | [] => ""
  | h :: t => t.foldl (fun acc s => acc ++ sep ++ s) h

/-- A column as built by `jsParseCSV`: name, the numeric-prefix heuristic
flag, and the value pool `rows.map(r => r[idx]).filter(v => v !== '')`
(note that an `undefined` cell of a short row passes that filter). -/
structure Column where
  name : String
  numeric : Bool
  values : List (Option String)
deriving DecidableEq

/-- `rows.map(r => r[idx]).filter(v => v !== '')`. -/
def colCells (rows : List (List String)) (idx : Nat) : List (Option String) :=
  (rows.map (fun r => r.get? idx)).filter (fun v => v ≠ some "")

/-- The `columns` array of `jsParseCSV`: per header position, the value
pool and the numeric test on the first 100 pooled values. -/
def mkColumns (headers : List String) (rows : List (List String)) : List Column :=
  headers.enum.map (fun p =>
    let vals := colCells rows p.1
    { name := p.2
      numeric := (vals.take 100).all (fun v => (numOf v).isSome)
      values := vals })

/-- Result of `jsParseCSV`. -/
structure Parsed where
  headers : List String
  rows : List (List String)
  columns : List Column

/-- `jsParseCSV(csv)`: trim, split lines, split the first line into
trimmed headers, the rest into trimmed cell rows, and profile columns. -/
def jsParseCSV (csv : String) : Parsed :=
  let lines := jsLines csv
  let headers := (chSplit ',' (lines.getD 0 [])).map (fun c => String.mk (jsTrim c))
  let rows := (lines.drop 1).map (fun l => (chSplit ',' l).map (fun c => String.mk (jsTrim c)))
  { headers := headers, rows := rows, columns := mkColumns headers rows }

/-- A JSON value in a caller-supplied constraint field, as far as
`typeof user.min === 'number'` can distinguish it. -/
inductive JsonNum where
  | jnum (q : ℚ)
  | jother
deriving DecidableEq

/-- A caller-supplied per-column constraint `{min?, max?}` (`none` field
models an absent key). -/
structure UserConstraint where
  min : Option JsonNum
  max : Option JsonNum
deriving DecidableEq

/-- One entry of the `numericMeta` record. -/
structure NumericMeta where
  min : ℚ
  max : ℚ
  int : Bool
deriving DecidableEq

/-- `Math.min(...nums)` guarded by `nums.length ? _ : d`. -/
def jsMinD (l : List ℚ) (d : ℚ) : ℚ :=
  match l with
  | [] => d
  | x :: xs => xs.foldl Min.min x

/-- `Math.max(...nums)` guarded by `nums.length ? _ : d`. -/
def jsMaxD (l : List ℚ) (d : ℚ) : ℚ :=
  match l with
  | [] => d
  | x :: xs => xs.foldl Max.max x

/-- `col.values.map(v => Number(v)).filter(n => !Number.isNaN(n))`. -/
def colNums (col : Column) : List ℚ := col.values.filterMap numOf

/-- `nums.length ? Math.min(...nums) : 0`. -/
def observedMin (col : Column) : ℚ := jsMinD (colNums col) 0

/-- `nums.length ? Math.max(...nums) : 1`. -/
def observedMax (col : Column) : ℚ := jsMaxD (colNums col) 1

/-- `constraints && constraints[name]`. -/
def lookupC (cs : List (String × UserConstraint)) (name : String) : Option UserConstraint :=
  (cs.find? (fun p => p.1 = name)).map (fun p => p.2)

/-- One `numericMeta` entry: observed min/max (with `0`/`1` defaults),
the `int` flag from the observed values, and user overrides for the
bounds whenever the supplied field is a number. -/
def metaOf (cs : List (String × UserConstraint)) (col : Column) : NumericMeta :=
  let omin := observedMin col
  let omax := observedMax col
  let user := (lookupC cs col.name).getD ⟨none, none⟩
  { min := match user.min with | some (.jnum q) => q | _ => omin
    max := match user.max with | some (.jnum q) => q | _ => omax
    int := omin.den == 1 && omax.den == 1 }

/-- The `numericMeta` record as a lookup function; built in column order,
later same-named columns overwriting earlier ones, restricted to the
synthesize-set. -/
def numericMetaFn (columns : List Column) (synth0 : List String)
    (cs : List (String × UserConstraint)) : String → Option NumericMeta :=
  columns.foldl (fun f col =>
    if synth0.contains col.name then
      fun n => if n = col.name then some (metaOf cs col) else f n
    else f) (fun _ => none)

/-- The initial synthesize-set: requested columns that exist among the
headers, deduplicated in first-occurrence order (`new Set(...)`). -/
def initialSynthSet (headers : List String) (cols : List String) : List String :=
  jsUniq (cols.filter (fun c => headers.contains c))

/-- `rows.map(r => [r[headers.indexOf(a)], r[headers.indexOf(b)]])`. -/
def mkPool (headers : List String) (rows : List (List String)) (a b : String) :
    List (Option String × Option String) :=
  rows.map (fun r => (r.get? (idxOf a headers), r.get? (idxOf b headers)))

/-- The template key `` `${a}|${b}` ``. -/
def poolKey (a b : String) : String := a ++ "|" ++ b

/-- Assignment into a JS object: an existing key keeps its position and
gets the new value, a new key is appended. -/
def poolInsert (l : List (String × List (Option String × Option String))) (k : String)
    (v : List (Option String × Option String)) :
    List (String × List (Option String × Option String)) :=
  if l.any (fun p => p.1 = k) then l.map (fun p => if p.1 = k then (k, v) else p)
  else l ++ [(k, v)]

/-- Processing one entry of the `relations` request array: skip anything
that is not a two-element pair or references a column outside the
synthesize-set, otherwise record the observed pair pool under the
template key. -/
def poolStep (headers : List String) (rows : List (List String)) (synth0 : List String)
    (acc : List (String × List (Option String × Option String))) (pair : List String) :
    List (String × List (Option String × Option String)) :=
  if pair.length = 2 then
    let a := pair.getD 0 ""
    let b := pair.getD 1 ""
    if synth0.contains a && synth0.contains b then
      poolInsert acc (poolKey a b) (mkPool headers rows a b)
    else acc
  else acc

/-- The `relationPools` record: for each well-formed relation pair with
both columns in the synthesize-set, the pool of observed value pairs. -/
def buildPools (headers : List String) (rows : List (List String)) (synth0 : List String)
    (relations : List (List String)) : List (String × List (Option String × Option String)) :=
  relations.foldl (poolStep headers rows synth0) []

/-- First component of `key.split('|')`. -/
def keyA (key : String) : String := String.mk ((chSplit '|' key.data).getD 0 [])

/-- Second component of `key.split('|')`. -/
def keyB (key : String) : String := String.mk ((chSplit '|' key.data).getD 1 [])

/-- A synthesized row, a JS record keyed by column name. -/
abbrev RowRec := String → Option JSVal

/-- `r[k] = v`. -/
def recSet (r : RowRec) (k : String) (v : JSVal) : RowRec :=
  fun n => if n = k then some v else r n

/-- `pick[i] ?? ''`. -/
def optStr (o : Option String) : JSVal := .str (o.getD "")

/-- A pool/uniq element written as a record value: `undefined` stays
`undefined`. -/
def optCell (o : Option String) : JSVal :=
  match o with
  | some s => .str s
  | none => .undefVal

/-- `r[h] ?? ''` at CSV assembly time: a missing key or an `undefined`
value becomes the empty string. -/
def cellOut (r : RowRec) (h : String) : JSVal :=
  match r h with
  | some .undefVal => .str ""
  | some v => v
  | none => .str ""

/-- Row seeding: `original[headers[h]] = rows[i]?.[h] ?? ''` for each
header position in order. -/
def seedRec (headers : List String) (row : List String) : RowRec :=
  headers.enum.foldl (fun acc p => recSet acc p.2 (.str (row.getD p.1 ""))) (fun _ => none)

/-- `Math.floor(r * n)` as an array index. -/
def jsFloorIdx (r : ℚ) (n : Nat) : Nat := (⌊r * (n : ℚ)⌋).toNat

/-- JS `Math.round`: round half toward positive infinity. -/
def jsRound (q : ℚ) : ℤ := ⌊q + 1 / 2⌋

/-- The numeric synthesis formula: uniform draw in the effective range,
then integer rounding when the `int` flag is set, else rounding to three
decimal places. -/
def numValue (m : NumericMeta) (rv : ℚ) : ℚ :=
  let val := m.min + rv * (m.max - m.min)
  if m.int then ((jsRound val : ℤ) : ℚ) else ((jsRound (val * 1000) : ℤ) : ℚ) / 1000

/-- The categorical synthesis value: a uniform pick from the distinct
value pool (`uniq[Math.floor(Math.random()*uniq.length)]`). -/
def catValue (col : Column) (rv : ℚ) : JSVal :=
  optCell ((jsUniq col.values).getD (jsFloorIdx rv (jsUniq col.values).length) none)

/-- The categorical branch `uniq.length ? uniq[...] : ''`. -/
def catBranch (col : Column) (rv : ℚ) : JSVal :=
  if (jsUniq col.values).isEmpty then .str "" else catValue col rv

/-- State while applying the relation pools to one row. -/
structure RelState where
  row : RowRec
  set : List String
  k : Nat

/-- Applying one `relationPools` entry: when the pool is non-empty, draw
a pair, overwrite both split-key columns, and delete them from the
synthesize-set. -/
def relStep (g : Nat → ℚ) (st : RelState) (entry : String × List (Option String × Option String)) :
    RelState :=
  let a := keyA entry.1
  let b := keyB entry.1
  if entry.2.isEmpty then st
  else
    let pick := entry.2.getD (jsFloorIdx (g st.k) entry.2.length) (none, none)
    { row := recSet (recSet st.row a (optStr pick.1)) b (optStr pick.2)
      set := (st.set.filter (fun n => n ≠ a)).filter (fun n => n ≠ b)
      k := st.k + 1 }

/-- The relation loop over all pool entries. -/
def relFold (g : Nat → ℚ) (st : RelState)
    (pools : List (String × List (Option String × Option String))) : RelState :=
  pools.foldl (relStep g) st

/-- State while synthesizing the remaining selected columns of one row. -/
structure ColState where
  row : RowRec
  k : Nat

/-- The value written for one remaining selected column: the numeric
branch when the first column of that name is numeric and a meta entry
exists (`colInfo.type === 'numeric' && meta`), else the categorical
branch. -/
def colValue (mf : String → Option NumericMeta) (col : Column) (name : String) (rv : ℚ) :
    JSVal :=
  match mf name with
  | some m => if col.numeric then .num (numValue m rv) else catBranch col rv
  | none => catBranch col rv

/-- Synthesizing one remaining selected column; a draw is consumed in
every branch except the empty categorical pool and the missing column. -/
def colStep (g : Nat → ℚ) (columns : List Column) (mf : String → Option NumericMeta)
    (st : ColState) (name : String) : ColState :=
  match columns.find? (fun c => c.name = name) with
  | none => st
  | some col =>
    { row := recSet st.row name (colValue mf col name (g st.k))
      k :=
        match mf name with
        | some _ =>
          if col.numeric then st.k + 1
          else if (jsUniq col.values).isEmpty then st.k else st.k + 1
        | none => if (jsUniq col.values).isEmpty then st.k else st.k + 1 }

/-- Everything fixed across the row loop. -/
structure GenCtx where
  headers : List String
  rows : List (List String)
  columns : List Column
  mf : String → Option NumericMeta
  pools : List (String × List (Option String × Option String))
  g : Nat → ℚ

/-- Mutable state carried across output rows: the (shrinking)
synthesize-set and the position in the random stream. -/
structure GenState where
  set : List String
  k : Nat

/-- One iteration of the row loop: seed from the source row, apply
relations, then synthesize the remaining selected columns. -/
def rowStep (ctx : GenCtx) (st : GenState) (i : Nat) : RowRec × GenState :=
  let seed := seedRec ctx.headers (ctx.rows.getD i [])
  let r1 := relFold ctx.g ⟨seed, st.set, st.k⟩ ctx.pools
  let r2 := r1.set.foldl (colStep ctx.g ctx.columns ctx.mf) (⟨r1.row, r1.k⟩ : ColState)
  (r2.row, ⟨r1.set, r2.k⟩)

/-- The row loop, accumulating output rows in order. -/
def rowsLoop (ctx : GenCtx) (st : GenState) : List Nat → List RowRec × GenState
  | [] => ([], st)
  | i :: rest =>
    let p := rowStep ctx st i
    let q := rowsLoop ctx p.2 rest
    (p.1 :: q.1, q.2)

/-- The parsed input together with the derived generation context. -/
def mkCtx (csv : String) (cols : List String) (cs : List (String × UserConstraint))
    (relations : List (List String)) (g : Nat → ℚ) : GenCtx :=
  let p := jsParseCSV csv
  let s0 := initialSynthSet p.headers cols
  { headers := p.headers, rows := p.rows, columns := p.columns
    mf := numericMetaFn p.columns s0 cs
    pools := buildPools p.headers p.rows s0 relations
    g := g }

/-- Output of the controlled fallback: the headers, the row records, the
rows assembled into header-ordered cell lists, and the header line of
the synthetic CSV. -/
structure GenOutput where
  headers : List String
  outRows : List RowRec
  assembled : List (List JSVal)
  headerLine : String

/-- The controlled fallback generator of `/api/generate_controlled`. -/
def generateControlled (csv : String) (cols : List String)
    (cs : List (String × UserConstraint)) (relations : List (List String))
    (rowCount : Nat) (g : Nat → ℚ) : GenOutput :=
  let ctx := mkCtx csv cols cs relations g
  let s0 := initialSynthSet ctx.headers cols
  let rs := (rowsLoop ctx ⟨s0, 0⟩ (List.range rowCount)).1
  { headers := ctx.headers
    outRows := rs
    assembled := rs.map (fun r => ctx.headers.map (cellOut r))
    headerLine := jsJoin "," ctx.headers }

/-- The correlation block of the fallback evaluation report. -/
structure CorrelationData where
  originalCorr : List (List ℚ)
  syntheticCorr : List (List ℚ)
  columnNames : List String
deriving DecidableEq

/-- The fallback evaluation report. -/
structure EvalReport where
  privacyScore : ℚ
  utilityScore : ℚ
  ksTestScore : ℚ
  correlationDistance : ℚ
  distributionData : List (List ℚ)
  correlationData : CorrelationData
deriving DecidableEq

/-- The fallback evaluator `jsEvaluate`. -/
def jsEvaluate (columns : List Column) (synth : List RowRec) : EvalReport :=
  { privacyScore := 95
    utilityScore := 92
    ksTestScore := 2 / 100
    correlationDistance := 5 / 100
    distributionData := []
    correlationData :=
      { originalCorr := [[1, 7 / 10], [7 / 10, 1]]
        syntheticCorr := [[1, 68 / 100], [68 / 100, 1]]
        columnNames := ((columns.filter (fun c => c.numeric)).take 2).map (fun c => c.name) } }

/-- A constraint suggestion of `/api/analyze_dataset`. -/
structure Suggestion where
  type : String
  min : Option ℚ
  max : Option ℚ
deriving DecidableEq

/-- One `dtypes` entry of `/api/analyze_dataset`. -/
structure DtypeEntry where
  name : String
  dtype : String
  suggestions : Suggestion
deriving DecidableEq

/-- Does `l` start with `pat`? -/
def startsWithSeq (pat l : List Char) : Bool :=
  match pat, l with
  | [], _ => true
  | _ :: _, [] => false
  | p :: ps, c :: cs => p == c && startsWithSeq ps cs

/-- Does `pat` occur contiguously inside `l`? -/
def hasInfixSeq (pat : List Char) : List Char → Bool
  | [] => startsWithSeq pat []
  | c :: cs => startsWithSeq pat (c :: cs) || hasInfixSeq pat cs

/-- `/year/i.test(name)`: the letters `year` occur in the name,
case-insensitively. -/
def yearTest (name : String) : Bool :=
  hasInfixSeq "year".data (name.data.map Char.toLower)

/-- The analyzer's per-column suggestion: year-named columns get the
clamped int range, numeric columns the observed range with the
integrality-derived type, all others `categorical`. -/
def analyzeColumn (name : String) (vals : List (Option String)) : Suggestion :=
  if yearTest name then
    let nums := vals.filterMap numOf
    { type := "int"
      min := some ((Max.max 1900 ⌊jsMinD nums 1900⌋ : ℤ) : ℚ)
      max := some ((Min.min 2025 ⌈jsMaxD nums 2025⌉ : ℤ) : ℚ) }
  else if (vals.take 200).all (fun v => (numOf v).isSome) then
    let nums := vals.filterMap numOf
    let mn := jsMinD nums 0
    let mx := jsMaxD nums 1
    { type := if mn.den == 1 && mx.den == 1 then "int" else "float"
      min := some mn
      max := some mx }
  else
    { type := "categorical", min := none, max := none }

/-- The `dtypes` array of `/api/analyze_dataset`. -/
def analyzeDataset (csv : String) : List DtypeEntry :=
  let p := jsParseCSV csv
  p.headers.enum.map (fun q =>
    let vals := colCells p.rows q.1
    let s := analyzeColumn q.2 vals
    { name := q.2, dtype := s.type, suggestions := s })

/-! ### Basic lemmas -/

theorem jsFloorIdx_lt (r : ℚ) (n : Nat) (h0 : 0 ≤ r) (h1 : r < 1) (hn : 0 < n) :
    jsFloorIdx r n < n := by
  have hlt : ⌊r * (n : ℚ)⌋ < (n : ℤ) := by
    rw [Int.floor_lt]
    push_cast
    calc r * (n : ℚ) < 1 * (n : ℚ) := by
          apply mul_lt_mul_of_pos_right h1
          exact_mod_cast hn
      _ = (n : ℚ) := one_mul _
  have hge : 0 ≤ ⌊r * (n : ℚ)⌋ := Int.floor_nonneg.mpr (by positivity)
  unfold jsFloorIdx
  omega

theorem getD_mem {α : Type} (l : List α) (i : Nat) (d : α) (h : i < l.length) :
    l.getD i d ∈ l := by
  rw [List.getD_eq_get?, List.get?_eq_get h, Option.getD_some]
  exact List.get_mem l i h

theorem mem_of_mem_jsUniqAux {α : Type} [DecidableEq α] (a : α) :
    ∀ (l seen : List α), a ∈ jsUniqAux seen l → a ∈ l := by
  intro l
  induction l with
  | nil => intro seen h; simp [jsUniqAux] at h
  | cons b l ih =>
    intro seen h
    rw [jsUniqAux] at h
    by_cases hb : b ∈ seen
    · rw [if_pos hb] at h
      exact List.mem_cons_of_mem b (ih seen h)
    · rw [if_neg hb] at h
      rcases List.mem_cons.mp h with h | h
      · exact h ▸ List.mem_cons_self b l
      · exact List.mem_cons_of_mem b (ih (b :: seen) h)

theorem mem_of_mem_jsUniq {α : Type} [DecidableEq α] (a : α) (l : List α)
    (h : a ∈ jsUniq l) : a ∈ l :=
  mem_of_mem_jsUniqAux a l [] h

theorem jsUniqAux_not_mem_seen {α : Type} [DecidableEq α] :
    ∀ (l seen : List α) (x : α), x ∈ seen → x ∉ jsUniqAux seen l := by
  intro l
  induction l with
  | nil => intro seen x _ h; simp [jsUniqAux] at h
  | cons b l ih =>
    intro seen x hx h
    rw [jsUniqAux] at h
    by_cases hb : b ∈ seen
    · rw [if_pos hb] at h
      exact ih seen x hx h
    · rw [if_neg hb] at h
      rcases List.mem_cons.mp h with h | h
      · exact hb (h ▸ hx)
      · exact ih (b :: seen) x (List.mem_cons_of_mem b hx) h

theorem jsUniqAux_nodup {α : Type} [DecidableEq α] :
    ∀ (l seen : List α), (jsUniqAux seen l).Nodup := by
  intro l
  induction l with
  | nil => intro seen; simp [jsUniqAux]
  | cons b l ih =>
    intro seen
    rw [jsUniqAux]
    by_cases hb : b ∈ seen
    · rw [if_pos hb]
      exact ih seen
    · rw [if_neg hb]
      exact List.nodup_cons.mpr
        ⟨jsUniqAux_not_mem_seen l (b :: seen) b (List.mem_cons_self b seen), ih (b :: seen)⟩

theorem nodup_jsUniq {α : Type} [DecidableEq α] (l : List α) : (jsUniq l).Nodup :=
  jsUniqAux_nodup l []

theorem recSet_same (r : RowRec) (k : String) (v : JSVal) : recSet r k v k = some v := by
  simp [recSet]

theorem recSet_other (r : RowRec) (k : String) (v : JSVal) (n : String) (h : n ≠ k) :
    recSet r k v n = r n := by
  simp [recSet, h]

theorem chSplit_ne_nil (sep : Char) : ∀ l : List Char, chSplit sep l ≠ []
  | [] => by simp [chSplit]
  | c :: rest => by
    simp only [chSplit]
    rcases h : chSplit sep rest with _ | ⟨hh, t⟩
    · simp
    · by_cases hc : c = sep <;> simp [hc]

theorem chSplit_cons_eq (sep c : Char) (rest : List Char) (h : List Char)
    (t : List (List Char)) (hre : chSplit sep rest = h :: t) :
    chSplit sep (c :: rest) = if c = sep then [] :: h :: t else (c :: h) :: t := by
  unfold chSplit
  rw [hre]

theorem chSplit_sep_not_mem (sep : Char) :
    ∀ l : List Char, ∀ p ∈ chSplit sep l, sep ∉ p := by
  intro l
  induction l with
  | nil =>
    intro p hp
    simp only [chSplit, List.mem_singleton] at hp
    simp [hp]
  | cons c rest ih =>
    intro p hp
    rcases hre : chSplit sep rest with _ | ⟨h, t⟩
    · exact absurd hre (chSplit_ne_nil sep rest)
    · rw [chSplit_cons_eq sep c rest h t hre] at hp
      by_cases hcs : c = sep
      · rw [if_pos hcs] at hp
        rcases List.mem_cons.mp hp with rfl | hp2
        · simp
        · exact ih p (hre ▸ hp2)
      · rw [if_neg hcs] at hp
        rcases List.mem_cons.mp hp with rfl | hp2
        · intro hsp
          rcases List.mem_cons.mp hsp with rfl | hsh
          · exact hcs rfl
          · exact ih h (by rw [hre]; exact List.mem_cons_self _ _) hsh
        · exact ih p (by rw [hre]; exact List.mem_cons_of_mem _ hp2)

theorem chSplit_append_sep (sep : Char) :
    ∀ la lb : List Char, sep ∉ la → chSplit sep (la ++ sep :: lb) = la :: chSplit sep lb := by
  intro la
  induction la with
  | nil =>
    intro lb _
    rcases h : chSplit sep lb with _ | ⟨hh, t⟩
    · exact absurd h (chSplit_ne_nil sep lb)
    · rw [List.nil_append, chSplit_cons_eq sep sep lb hh t h, if_pos rfl]
  | cons c la' ih =>
    intro lb hsep
    have hc : c ≠ sep := fun h => hsep (h ▸ List.mem_cons_self c la')
    have hla : sep ∉ la' := fun h => hsep (List.mem_cons_of_mem c h)
    rw [List.cons_append,
      chSplit_cons_eq sep c (la' ++ sep :: lb) la' (chSplit sep lb) (ih lb hla),
      if_neg hc]

theorem chSplit_no_sep (sep : Char) :
    ∀ l : List Char, sep ∉ l → chSplit sep l = [l] := by
  intro l
  induction l with
  | nil => intro _; simp [chSplit]
  | cons c rest ih =>
    intro hsep
    have hc : c ≠ sep := fun h => hsep (h ▸ List.mem_cons_self c rest)
    have hrest : sep ∉ rest := fun h => hsep (List.mem_cons_of_mem c h)
    rw [chSplit_cons_eq sep c rest rest [] (ih hrest), if_neg hc]

theorem poolKey_data (a b : String) : (poolKey a b).data = a.data ++ '|' :: b.data := by
  show (a ++ "|" ++ b).data = a.data ++ '|' :: b.data
  rw [String.data_append, String.data_append]
  simp

theorem keyA_poolKey (a b : String) (ha : '|' ∉ a.data) (hb : '|' ∉ b.data) :
    keyA (poolKey a b) = a ∧ keyB (poolKey a b) = b := by
  rw [keyA, keyB, poolKey_data, chSplit_append_sep _ _ _ ha, chSplit_no_sep _ _ hb]
  exact ⟨rfl, rfl⟩

theorem poolKey_inj {a b a2 b2 : String} (ha : '|' ∉ a.data) (hb : '|' ∉ b.data)
    (ha2 : '|' ∉ a2.data) (hb2 : '|' ∉ b2.data) (h : poolKey a b = poolKey a2 b2) :
    a = a2 ∧ b = b2 := by
  have h1 := keyA_poolKey a b ha hb
  have h2 := keyA_poolKey a2 b2 ha2 hb2
  rw [h] at h1
  exact ⟨h1.1 ▸ h2.1, h1.2 ▸ h2.2⟩

theorem foldl_min_le_init (xs : List ℚ) : ∀ a : ℚ, xs.foldl Min.min a ≤ a := by
  induction xs with
  | nil => intro a; simp
  | cons x xs ih =>
    intro a
    simp only [List.foldl_cons]
    exact le_trans (ih (Min.min a x)) (min_le_left a x)

theorem foldl_min_le_mem (xs : List ℚ) : ∀ (a x : ℚ), x ∈ xs → xs.foldl Min.min a ≤ x := by
  induction xs with
  | nil => intro a x hx; simp at hx
  | cons y xs ih =>
    intro a x hx
    simp only [List.foldl_cons]
    rcases List.mem_cons.mp hx with rfl | hx2
    · exact le_trans (foldl_min_le_init xs _) (min_le_right a x)
    · exact ih _ x hx2

theorem foldl_min_mem (xs : List ℚ) : ∀ a : ℚ, xs.foldl Min.min a = a ∨ xs.foldl Min.min a ∈ xs := by
  induction xs with
  | nil => intro a; left; rfl
  | cons x xs ih =>
    intro a
    simp only [List.foldl_cons]
    rcases ih (Min.min a x) with h | h
    · rcases min_choice a x with hm | hm
      · left; rw [h, hm]
      · right; rw [h, hm]; exact List.mem_cons_self x xs
    · right; exact List.mem_cons_of_mem x h

theorem foldl_max_init_le (xs : List ℚ) : ∀ a : ℚ, a ≤ xs.foldl Max.max a := by
  induction xs with
  | nil => intro a; simp
  | cons x xs ih =>
    intro a
    simp only [List.foldl_cons]
    exact le_trans (le_max_left a x) (ih (Max.max a x))

theorem foldl_max_mem_le (xs : List ℚ) : ∀ (a x : ℚ), x ∈ xs → x ≤ xs.foldl Max.max a := by
  induction xs with
  | nil => intro a x hx; simp at hx
  | cons y xs ih =>
    intro a x hx
    simp only [List.foldl_cons]
    rcases List.mem_cons.mp hx with rfl | hx2
    · exact le_trans (le_max_right a x) (foldl_max_init_le xs _)
    · exact ih _ x hx2

theorem foldl_max_mem (xs : List ℚ) : ∀ a : ℚ, xs.foldl Max.max a = a ∨ xs.foldl Max.max a ∈ xs := by
  induction xs with
  | nil => intro a; left; rfl
  | cons x xs ih =>
    intro a
    simp only [List.foldl_cons]
    rcases ih (Max.max a x) with h | h
    · rcases max_choice a x with hm | hm
      · left; rw [h, hm]
      · right; rw [h, hm]; exact List.mem_cons_self x xs
    · right; exact List.mem_cons_of_mem x h

theorem jsMinD_spec (l : List ℚ) (d : ℚ) (h : l ≠ []) :
    jsMinD l d ∈ l ∧ ∀ x ∈ l, jsMinD l d ≤ x := by
  rcases l with _ | ⟨x, xs⟩
  · exact absurd rfl h
  · constructor
    · rcases foldl_min_mem xs x with h2 | h2
      · rw [jsMinD, h2]; exact List.mem_cons_self x xs
      · rw [jsMinD]; exact List.mem_cons_of_mem x h2
    · intro y hy
      rcases List.mem_cons.mp hy with rfl | hy2
      · exact foldl_min_le_init xs y
      · exact foldl_min_le_mem xs x y hy2

theorem jsMaxD_spec (l : List ℚ) (d : ℚ) (h : l ≠ []) :
    jsMaxD l d ∈ l ∧ ∀ x ∈ l, x ≤ jsMaxD l d := by
  rcases l with _ | ⟨x, xs⟩
  · exact absurd rfl h
  · constructor
    · rcases foldl_max_mem xs x with h2 | h2
      · rw [jsMaxD, h2]; exact List.mem_cons_self x xs
      · rw [jsMaxD]; exact List.mem_cons_of_mem x h2
    · intro y hy
      rcases List.mem_cons.mp hy with rfl | hy2
      · exact foldl_max_init_le xs y
      · exact foldl_max_mem_le xs x y hy2

theorem numValue_bounds (m : NumericMeta) (rv : ℚ) (h0 : 0 ≤ rv) (h1 : rv < 1)
    (hle : m.min ≤ m.max)
    (hint : m.int = true → m.min.den = 1 ∧ m.max.den = 1)
    (hflt : m.int = false → (m.min * 1000).den = 1 ∧ (m.max * 1000).den = 1) :
    m.min ≤ numValue m rv ∧ numValue m rv ≤ m.max ∧
      (m.int = true → (numValue m rv).den = 1) := by
  have hval1 : m.min ≤ m.min + rv * (m.max - m.min) := by nlinarith
  have hval2 : m.min + rv * (m.max - m.min) ≤ m.max := by nlinarith
  cases hi : m.int with
  | false =>
    obtain ⟨hm1, hm2⟩ := hflt hi
    have e1 : ((m.min * 1000).num : ℚ) = m.min * 1000 := (Rat.den_eq_one_iff _).mp hm1
    have e2 : ((m.max * 1000).num : ℚ) = m.max * 1000 := (Rat.den_eq_one_iff _).mp hm2
    have lb : (m.min * 1000).num ≤ jsRound ((m.min + rv * (m.max - m.min)) * 1000) := by
      rw [jsRound, Int.le_floor, e1]
      nlinarith
    have ub : jsRound ((m.min + rv * (m.max - m.min)) * 1000) ≤ (m.max * 1000).num := by
      rw [jsRound, Int.floor_le_iff]
      push_cast [e2]
      nlinarith
    have lbq : ((m.min * 1000).num : ℚ) ≤ (jsRound ((m.min + rv * (m.max - m.min)) * 1000) : ℚ) := by
      exact_mod_cast lb
    have ubq : ((jsRound ((m.min + rv * (m.max - m.min)) * 1000) : ℤ) : ℚ) ≤ ((m.max * 1000).num : ℚ) := by
      exact_mod_cast ub
    simp only [numValue, hi, if_false, Bool.false_eq_true]
    refine ⟨by rw [e1] at lbq; linarith, by rw [e2] at ubq; linarith, ?_⟩
    intro hcontra
    exact absurd hcontra (by simp)
  | true =>
    obtain ⟨hm1, hm2⟩ := hint hi
    have e1 : ((m.min.num : ℤ) : ℚ) = m.min := (Rat.den_eq_one_iff _).mp hm1
    have e2 : ((m.max.num : ℤ) : ℚ) = m.max := (Rat.den_eq_one_iff _).mp hm2
    have lb : m.min.num ≤ jsRound (m.min + rv * (m.max - m.min)) := by
      rw [jsRound, Int.le_floor, e1]
      linarith
    have ub : jsRound (m.min + rv * (m.max - m.min)) ≤ m.max.num := by
      rw [jsRound, Int.floor_le_iff]
      push_cast [e2]
      linarith
    have lbq : ((m.min.num : ℤ) : ℚ) ≤ ((jsRound (m.min + rv * (m.max - m.min)) : ℤ) : ℚ) := by
      exact_mod_cast lb
    have ubq : ((jsRound (m.min + rv * (m.max - m.min)) : ℤ) : ℚ) ≤ ((m.max.num : ℤ) : ℚ) := by
      exact_mod_cast ub
    simp only [numValue, hi, if_true]
    exact ⟨by rw [e1] at lbq; exact lbq, by rw [e2] at ubq; exact ubq,
      fun _ => Rat.den_intCast _⟩

/-! ### Seeding lemmas -/

theorem seedFold_not_mem (row : List String) :
    ∀ (ps : List (Nat × String)) (acc : RowRec) (name : String),
      (∀ p ∈ ps, p.2 ≠ name) →
      ps.foldl (fun a p => recSet a p.2 (.str (row.getD p.1 ""))) acc name = acc name := by
  intro ps
  induction ps with
  | nil => intro acc name _; rfl
  | cons p rest ih =>
    intro acc name hnm
    simp only [List.foldl_cons]
    rw [ih _ name (fun q hq => hnm q (List.mem_cons_of_mem p hq))]
    exact recSet_other _ _ _ _ (fun h => hnm p (List.mem_cons_self p rest) h.symm)

theorem seedFold_unique (row : List String) :
    ∀ (ps : List (Nat × String)) (acc : RowRec) (j : Nat) (name : String),
      (j, name) ∈ ps → (ps.filter (fun p => p.2 = name)).length = 1 →
      ps.foldl (fun a p => recSet a p.2 (.str (row.getD p.1 ""))) acc name =
        some (.str (row.getD j "")) := by
  intro ps
  induction ps with
  | nil => intro acc j name hmem _; simp at hmem
  | cons p rest ih =>
    intro acc j name hmem hone
    by_cases hp : p.2 = name
    · have hrest0 : (rest.filter (fun q => q.2 = name)).length = 0 := by
        rw [List.filter_cons, if_pos (by simpa using hp)] at hone
        simpa using hone
      have hrestnm : ∀ q ∈ rest, q.2 ≠ name := by
        intro q hq hqn
        have : q ∈ rest.filter (fun q => q.2 = name) :=
          List.mem_filter.mpr ⟨hq, by simpa using hqn⟩
        rw [List.length_eq_zero.mp hrest0] at this
        simp at this
      have hj : j = p.1 := by
        rcases List.mem_cons.mp hmem with h | h
        · rw [← h]
        · exact absurd rfl (hrestnm (j, name) h)
      simp only [List.foldl_cons]
      rw [seedFold_not_mem row rest _ name hrestnm, hp, hj]
      exact recSet_same _ _ _
    · have hmem2 : (j, name) ∈ rest := by
        rcases List.mem_cons.mp hmem with h | h
        · exact absurd (congrArg Prod.snd h.symm) hp
        · exact h
      have hone2 : (rest.filter (fun q => q.2 = name)).length = 1 := by
        rw [List.filter_cons, if_neg (by simpa using hp)] at hone
        exact hone
      simp only [List.foldl_cons]
      exact ih _ j name hmem2 hone2

theorem seedRec_unique (headers : List String) (row : List String) (j : Nat) (name : String)
    (hj : headers.get? j = some name) (hcount : headers.countP (fun h => h = name) = 1) :
    seedRec headers row name = some (.str (row.getD j "")) := by
  have hmem : (j, name) ∈ headers.enum := by
    rw [List.mem_enum_iff_get?]
    exact hj
  have hone : (headers.enum.filter (fun p => p.2 = name)).length = 1 := by
    have h1 : headers.enum.countP (fun p => p.2 = name) = 1 := by
      have h2 := List.countP_map (fun h : String => decide (h = name)) Prod.snd headers.enum
      rw [List.enum_map_snd, hcount] at h2
      simpa [Function.comp] using h2.symm
    rw [← List.countP_eq_length_filter]
    exact h1
  exact seedFold_unique row headers.enum _ j name hmem hone

theorem seedRec_str (headers : List String) (row : List String) (name : String) :
    ∀ v, seedRec headers row name = some v → ∃ s, v = .str s := by
  rw [seedRec]
  generalize headers.enum = ps
  induction ps using List.reverseRecOn with
  | nil => intro v hv; simp at hv
  | append_singleton ps p ih =>
    intro v hv
    rw [List.foldl_append, List.foldl_cons, List.foldl_nil] at hv
    by_cases hp : name = p.2
    · rw [hp, recSet_same] at hv
      exact ⟨_, (Option.some_inj.mp hv).symm⟩
    · rw [recSet_other _ _ _ _ hp] at hv
      exact ih v hv

/-! ### Relation-loop lemmas -/

theorem relStep_row_other (g : Nat → ℚ) (st : RelState)
    (e : String × List (Option String × Option String)) (name : String)
    (ha : keyA e.1 ≠ name) (hb : keyB e.1 ≠ name) :
    (relStep g st e).row name = st.row name := by
  rw [relStep]
  by_cases he : e.2.isEmpty
  · rw [if_pos he]
  · rw [if_neg he]
    show recSet (recSet st.row (keyA e.1) _) (keyB e.1) _ name = st.row name
    rw [recSet_other _ _ _ _ (fun h => hb h.symm), recSet_other _ _ _ _ (fun h => ha h.symm)]

theorem relStep_set_sub (g : Nat → ℚ) (st : RelState)
    (e : String × List (Option String × Option String)) :
    ∀ x ∈ (relStep g st e).set, x ∈ st.set := by
  intro x hx
  rw [relStep] at hx
  by_cases he : e.2.isEmpty
  · rw [if_pos he] at hx; exact hx
  · rw [if_neg he] at hx
    exact List.mem_of_mem_filter (List.mem_of_mem_filter hx)

theorem relStep_mem_set (g : Nat → ℚ) (st : RelState)
    (e : String × List (Option String × Option String)) (x : String)
    (hx : x ∈ st.set) (ha : ¬e.2.isEmpty → keyA e.1 ≠ x ∧ keyB e.1 ≠ x) :
    x ∈ (relStep g st e).set := by
  rw [relStep]
  by_cases he : e.2.isEmpty
  · rw [if_pos he]; exact hx
  · rw [if_neg he]
    refine List.mem_filter.mpr ⟨List.mem_filter.mpr ⟨hx, ?_⟩, ?_⟩
    · simpa using fun h => (ha he).1 h.symm
    · simpa using fun h => (ha he).2 h.symm

theorem relStep_nodup (g : Nat → ℚ) (st : RelState)
    (e : String × List (Option String × Option String)) (h : st.set.Nodup) :
    (relStep g st e).set.Nodup := by
  rw [relStep]
  by_cases he : e.2.isEmpty
  · rw [if_pos he]; exact h
  · rw [if_neg he]
    exact List.Nodup.filter _ (List.Nodup.filter _ h)

theorem relFold_row_preserved (g : Nat → ℚ) (name : String) :
    ∀ (pools : List (String × List (Option String × Option String))) (st : RelState),
      (∀ e ∈ pools, keyA e.1 ≠ name ∧ keyB e.1 ≠ name) →
      (relFold g st pools).row name = st.row name := by
  intro pools
  induction pools with
  | nil => intro st _; rfl
  | cons e rest ih =>
    intro st hp
    show (relFold g (relStep g st e) rest).row name = st.row name
    rw [ih _ (fun x hx => hp x (List.mem_cons_of_mem e hx))]
    exact relStep_row_other g st e name (hp e (List.mem_cons_self e rest)).1
      (hp e (List.mem_cons_self e rest)).2

theorem relFold_set_sub (g : Nat → ℚ) :
    ∀ (pools : List (String × List (Option String × Option String))) (st : RelState),
      ∀ x ∈ (relFold g st pools).set, x ∈ st.set := by
  intro pools
  induction pools with
  | nil => intro st x hx; exact hx
  | cons e rest ih =>
    intro st x hx
    exact relStep_set_sub g st e x (ih (relStep g st e) x hx)

theorem relFold_mem_set (g : Nat → ℚ) (x : String) :
    ∀ (pools : List (String × List (Option String × Option String))) (st : RelState),
      x ∈ st.set → (∀ e ∈ pools, ¬e.2.isEmpty → keyA e.1 ≠ x ∧ keyB e.1 ≠ x) →
      x ∈ (relFold g st pools).set := by
  intro pools
  induction pools with
  | nil => intro st hx _; exact hx
  | cons e rest ih =>
    intro st hx hp
    exact ih (relStep g st e)
      (relStep_mem_set g st e x hx (hp e (List.mem_cons_self e rest)))
      (fun e2 he2 => hp e2 (List.mem_cons_of_mem e he2))

theorem relFold_nodup (g : Nat → ℚ) :
    ∀ (pools : List (String × List (Option String × Option String))) (st : RelState),
      st.set.Nodup → (relFold g st pools).set.Nodup := by
  intro pools
  induction pools with
  | nil => intro st h; exact h
  | cons e rest ih =>
    intro st h
    exact ih (relStep g st e) (relStep_nodup g st e h)

theorem relFold_applied (g : Nat → ℚ) (hg : ∀ k, 0 ≤ g k ∧ g k < 1)
    (p1 p2 : List (String × List (Option String × Option String)))
    (e : String × List (Option String × Option String)) (st : RelState)
    (hne : e.2 ≠ []) (hab : keyA e.1 ≠ keyB e.1)
    (h2 : ∀ e2 ∈ p2, keyA e2.1 ≠ keyA e.1 ∧ keyA e2.1 ≠ keyB e.1 ∧
      keyB e2.1 ≠ keyA e.1 ∧ keyB e2.1 ≠ keyB e.1) :
    ∃ p ∈ e.2, (relFold g st (p1 ++ e :: p2)).row (keyA e.1) = some (optStr p.1) ∧
      (relFold g st (p1 ++ e :: p2)).row (keyB e.1) = some (optStr p.2) ∧
      keyA e.1 ∉ (relFold g st (p1 ++ e :: p2)).set ∧
      keyB e.1 ∉ (relFold g st (p1 ++ e :: p2)).set := by
  rw [relFold, List.foldl_append, List.foldl_cons]
  set st1 := List.foldl (relStep g) st p1 with hst1
  have hemp : ¬e.2.isEmpty := by simpa using hne
  set st2 := relStep g st1 e with hst2
  have hpicklt : jsFloorIdx (g st1.k) e.2.length < e.2.length := by
    refine jsFloorIdx_lt _ _ (hg st1.k).1 (hg st1.k).2 ?_
    cases h : e.2 with
    | nil => exact absurd h hne
    | cons x xs => simp [h]
  refine ⟨e.2.getD (jsFloorIdx (g st1.k) e.2.length) (none, none),
    getD_mem _ _ _ hpicklt, ?_, ?_, ?_, ?_⟩
  · have hrow2 : st2.row (keyA e.1) =
        some (optStr (e.2.getD (jsFloorIdx (g st1.k) e.2.length) (none, none)).1) := by
      rw [hst2, relStep, if_neg hemp]
      show recSet (recSet st1.row (keyA e.1) _) (keyB e.1) _ (keyA e.1) = _
      rw [recSet_other _ _ _ _ hab, recSet_same]
    rw [show List.foldl (relStep g) st2 p2 = relFold g st2 p2 from rfl,
      relFold_row_preserved g (keyA e.1) p2 st2 (fun e2 he2 =>
        ⟨(h2 e2 he2).1, (h2 e2 he2).2.2.1⟩), hrow2]
  · have hrow2 : st2.row (keyB e.1) =
        some (optStr (e.2.getD (jsFloorIdx (g st1.k) e.2.length) (none, none)).2) := by
      rw [hst2, relStep, if_neg hemp]
      show recSet (recSet st1.row (keyA e.1) _) (keyB e.1) _ (keyB e.1) = _
      rw [recSet_same]
    rw [show List.foldl (relStep g) st2 p2 = relFold g st2 p2 from rfl,
      relFold_row_preserved g (keyB e.1) p2 st2 (fun e2 he2 =>
        ⟨(h2 e2 he2).2.1, (h2 e2 he2).2.2.2⟩), hrow2]
  · intro hmem
    have hmem2 : keyA e.1 ∈ st2.set :=
      relFold_set_sub g p2 st2 _ hmem
    rw [hst2, relStep, if_neg hemp] at hmem2
    have := List.mem_of_mem_filter hmem2
    rw [List.mem_filter] at this
    simp at this
  · intro hmem
    have hmem2 : keyB e.1 ∈ st2.set :=
      relFold_set_sub g p2 st2 _ hmem
    rw [hst2, relStep, if_neg hemp] at hmem2
    rw [List.mem_filter] at hmem2
    simp at hmem2

/-! ### Column-loop lemmas -/

theorem colStep_row_other (g : Nat → ℚ) (columns : List Column)
    (mf : String → Option NumericMeta) (st : ColState) (x name : String) (h : x ≠ name) :
    (colStep g columns mf st x).row name = st.row name := by
  rw [colStep]
  cases columns.find? (fun c => c.name = x) with
  | none => rfl
  | some col =>
    exact recSet_other _ _ _ _ (fun hn => h hn.symm)

theorem colFold_not_mem (g : Nat → ℚ) (columns : List Column)
    (mf : String → Option NumericMeta) :
    ∀ (l : List String) (st : ColState) (name : String), name ∉ l →
      (l.foldl (colStep g columns mf) st).row name = st.row name := by
  intro l
  induction l with
  | nil => intro st name _; rfl
  | cons x rest ih =>
    intro st name hn
    simp only [List.foldl_cons]
    rw [ih _ name (fun h => hn (List.mem_cons_of_mem x h))]
    exact colStep_row_other g columns mf st x name (fun h => hn (h ▸ List.mem_cons_self x rest))

theorem colFold_mem (g : Nat → ℚ) (columns : List Column)
    (mf : String → Option NumericMeta) :
    ∀ (l : List String) (st : ColState) (name : String) (col : Column), name ∈ l → l.Nodup →
      columns.find? (fun c => c.name = name) = some col →
      ∃ k2, (l.foldl (colStep g columns mf) st).row name =
        some (colValue mf col name (g k2)) := by
  intro l
  induction l with
  | nil => intro st name col hmem _ _; simp at hmem
  | cons x rest ih =>
    intro st name col hmem hnd hfind
    by_cases hx : x = name
    · have hnotin : name ∉ rest := by
        rw [← hx]
        exact (List.nodup_cons.mp hnd).1
      refine ⟨st.k, ?_⟩
      simp only [List.foldl_cons]
      rw [colFold_not_mem g columns mf rest _ name hnotin, hx, colStep, hfind]
      exact recSet_same _ _ _
    · have hmem2 : name ∈ rest := by
        rcases List.mem_cons.mp hmem with h | h
        · exact absurd h.symm hx
        · exact h
      simp only [List.foldl_cons]
      exact ih _ name col hmem2 (List.nodup_cons.mp hnd).2 hfind

/-! ### Row-loop lemmas -/

theorem rowsLoop_length (ctx : GenCtx) :
    ∀ (l : List Nat) (st : GenState), (rowsLoop ctx st l).1.length = l.length := by
  intro l
  induction l with
  | nil => intro st; rfl
  | cons i rest ih =>
    intro st
    simp only [rowsLoop, List.length_cons]
    rw [ih]

theorem rowsLoop_get (ctx : GenCtx) (Q : GenState → Prop)
    (hQ : ∀ st i, Q st → Q (rowStep ctx st i).2) :
    ∀ (l : List Nat) (st : GenState) (i : Nat) (x : Nat), Q st → l.get? i = some x →
      ∃ st2, Q st2 ∧ (rowsLoop ctx st l).1.get? i = some (rowStep ctx st2 x).1 := by
  intro l
  induction l with
  | nil => intro st i x _ hi; simp at hi
  | cons y rest ih =>
    intro st i x hst hi
    cases i with
    | zero =>
      rw [List.get?_cons_zero, Option.some_inj] at hi
      exact ⟨st, hst, by simp only [rowsLoop, hi, List.get?_cons_zero]⟩
    | succ i2 =>
      rw [List.get?_cons_succ] at hi
      obtain ⟨st2, hst2, hres⟩ := ih (rowStep ctx st y).2 i2 x (hQ st y hst) hi
      exact ⟨st2, hst2, by simp only [rowsLoop, List.get?_cons_succ]; exact hres⟩

/-! ### Pool-construction lemmas -/

theorem poolInsert_keys (l : List (String × List (Option String × Option String)))
    (k : String) (v : List (Option String × Option String)) :
    (poolInsert l k v).map Prod.fst =
      if l.any (fun p => p.1 = k) then l.map Prod.fst else l.map Prod.fst ++ [k] := by
  rw [poolInsert]
  by_cases h : l.any (fun p => p.1 = k)
  · rw [if_pos h, if_pos h, List.map_map]
    apply List.map_congr_left
    intro p hp
    by_cases hpk : p.1 = k
    · simp [hpk]
    · simp [hpk]
  · rw [if_neg h, if_neg h]
    simp

theorem poolInsert_mem (l : List (String × List (Option String × Option String)))
    (k : String) (v : List (Option String × Option String)) :
    ∀ x ∈ poolInsert l k v, x ∈ l ∨ x = (k, v) := by
  intro x hx
  rw [poolInsert] at hx
  by_cases h : l.any (fun p => p.1 = k)
  · rw [if_pos h] at hx
    obtain ⟨p, hp, hpe⟩ := List.mem_map.mp hx
    by_cases hpk : p.1 = k
    · right; rw [← hpe, if_pos hpk]
    · left; rw [← hpe, if_neg hpk]; exact hp
  · rw [if_neg h] at hx
    rcases List.mem_append.mp hx with h2 | h2
    · left; exact h2
    · right; simpa using h2

theorem poolInsert_key_mem (l : List (String × List (Option String × Option String)))
    (k : String) (v : List (Option String × Option String)) :
    k ∈ (poolInsert l k v).map Prod.fst := by
  rw [poolInsert_keys]
  by_cases h : l.any (fun p => p.1 = k)
  · rw [if_pos h]
    obtain ⟨p, hp, hpk⟩ := List.any_eq_true.mp h
    exact List.mem_map.mpr ⟨p, hp, by simpa using hpk⟩
  · rw [if_neg h]
    simp

theorem poolInsert_key_mono (l : List (String × List (Option String × Option String)))
    (k : String) (v : List (Option String × Option String)) (k2 : String)
    (h : k2 ∈ l.map Prod.fst) : k2 ∈ (poolInsert l k v).map Prod.fst := by
  rw [poolInsert_keys]
  by_cases h2 : l.any (fun p => p.1 = k)
  · rw [if_pos h2]; exact h
  · rw [if_neg h2]; exact List.mem_append.mpr (Or.inl h)

theorem poolStep_key_mono (headers : List String) (rows : List (List String))
    (s0 : List String) (acc : List (String × List (Option String × Option String)))
    (pair : List String) (k : String) (h : k ∈ acc.map Prod.fst) :
    k ∈ (poolStep headers rows s0 acc pair).map Prod.fst := by
  rw [poolStep]
  by_cases h2 : pair.length = 2
  · rw [if_pos h2]
    by_cases h3 : s0.contains (pair.getD 0 "") && s0.contains (pair.getD 1 "")
    · simp only [h3, if_true]
      exact poolInsert_key_mono _ _ _ _ h
    · simp only [h3, if_false]
      exact h
  · rw [if_neg h2]; exact h

theorem poolStep_nodup_keys (headers : List String) (rows : List (List String))
    (s0 : List String) (acc : List (String × List (Option String × Option String)))
    (pair : List String) (h : (acc.map Prod.fst).Nodup) :
    ((poolStep headers rows s0 acc pair).map Prod.fst).Nodup := by
  rw [poolStep]
  by_cases h2 : pair.length = 2
  · rw [if_pos h2]
    by_cases h3 : s0.contains (pair.getD 0 "") && s0.contains (pair.getD 1 "")
    · simp only [h3, if_true]
      rw [poolInsert_keys]
      by_cases h4 : acc.any (fun p => p.1 = poolKey (pair.getD 0 "") (pair.getD 1 ""))
      · rw [if_pos h4]; exact h
      · rw [if_neg h4]
        have hnotin : poolKey (pair.getD 0 "") (pair.getD 1 "") ∉ acc.map Prod.fst := by
          intro hmem
          obtain ⟨p, hp, hpk⟩ := List.mem_map.mp hmem
          exact h4 (List.any_eq_true.mpr ⟨p, hp, by simpa using hpk⟩)
        simp only [List.nodup_append, List.nodup_cons, List.not_mem_nil, not_false_iff,
          List.nodup_nil, and_true, true_and]
        refine ⟨h, ?_⟩
        intro k hk hmem
        simp only [List.mem_singleton] at hmem
        exact hnotin (hmem ▸ hk)
    · simp only [h3, if_false]
      exact h
  · rw [if_neg h2]; exact h

theorem poolsFold_nodup_keys (headers : List String) (rows : List (List String))
    (s0 : List String) :
    ∀ (rels : List (List String)) (acc : List (String × List (Option String × Option String))),
      (acc.map Prod.fst).Nodup →
      ((rels.foldl (poolStep headers rows s0) acc).map Prod.fst).Nodup := by
  intro rels
  induction rels with
  | nil => intro acc h; exact h
  | cons pair rest ih =>
    intro acc h
    exact ih _ (poolStep_nodup_keys headers rows s0 acc pair h)

theorem buildPools_nodup_keys (headers : List String) (rows : List (List String))
    (s0 : List String) (rels : List (List String)) :
    ((buildPools headers rows s0 rels).map Prod.fst).Nodup :=
  poolsFold_nodup_keys headers rows s0 rels [] (by simp)

/-- A two-column relation request that the generator honors: a
well-formed pair whose two columns are both in the synthesize-set. -/
def PairApplied (s0 : List String) (rels : List (List String)) (a b : String) : Prop :=
  ∃ pair ∈ rels, pair.length = 2 ∧ pair.getD 0 "" = a ∧ pair.getD 1 "" = b ∧
    s0.contains a = true ∧ s0.contains b = true

theorem poolsFold_shape (headers : List String) (rows : List (List String)) (s0 : List String) :
    ∀ (rels : List (List String)) (acc : List (String × List (Option String × Option String)))
      (x : String × List (Option String × Option String)),
      x ∈ rels.foldl (poolStep headers rows s0) acc →
      x ∈ acc ∨ ∃ a b, PairApplied s0 rels a b ∧ x = (poolKey a b, mkPool headers rows a b) := by
  intro rels
  induction rels with
  | nil => intro acc x hx; exact Or.inl hx
  | cons pair rest ih =>
    intro acc x hx
    rcases ih (poolStep headers rows s0 acc pair) x hx with h | ⟨a, b, hab, hx2⟩
    · rw [poolStep] at h
      by_cases h2 : pair.length = 2
      · rw [if_pos h2] at h
        by_cases h3 : s0.contains (pair.getD 0 "") && s0.contains (pair.getD 1 "")
        · simp only [h3, if_true] at h
          rcases poolInsert_mem _ _ _ x h with h4 | h4
          · exact Or.inl h4
          · refine Or.inr ⟨pair.getD 0 "", pair.getD 1 "", ⟨pair, List.mem_cons_self _ _,
              h2, rfl, rfl, ?_, ?_⟩, h4⟩
            · exact (Bool.and_eq_true _ _).mp h3 |>.1
            · exact (Bool.and_eq_true _ _).mp h3 |>.2
        · simp only [h3, if_false] at h
          exact Or.inl h
      · rw [if_neg h2] at h
        exact Or.inl h
    · obtain ⟨p, hp, hrest⟩ := hab
      exact Or.inr ⟨a, b, ⟨p, List.mem_cons_of_mem _ hp, hrest⟩, hx2⟩

theorem buildPools_shape (headers : List String) (rows : List (List String)) (s0 : List String)
    (rels : List (List String)) (x : String × List (Option String × Option String))
    (hx : x ∈ buildPools headers rows s0 rels) :
    ∃ a b, PairApplied s0 rels a b ∧ x = (poolKey a b, mkPool headers rows a b) := by
  rcases poolsFold_shape headers rows s0 rels [] x hx with h | h
  · simp at h
  · exact h

theorem poolsFold_key_mono (headers : List String) (rows : List (List String))
    (s0 : List String) :
    ∀ (rels : List (List String)) (acc : List (String × List (Option String × Option String)))
      (k : String), k ∈ acc.map Prod.fst →
      k ∈ (rels.foldl (poolStep headers rows s0) acc).map Prod.fst := by
  intro rels
  induction rels with
  | nil => intro acc k h; exact h
  | cons pair rest ih =>
    intro acc k h
    exact ih _ k (poolStep_key_mono headers rows s0 acc pair k h)

theorem poolsFold_key_mem (headers : List String) (rows : List (List String)) (s0 : List String)
    (a b : String) :
    ∀ (rels : List (List String)) (acc : List (String × List (Option String × Option String))),
      PairApplied s0 rels a b →
      poolKey a b ∈ (rels.foldl (poolStep headers rows s0) acc).map Prod.fst := by
  intro rels
  induction rels with
  | nil =>
    intro acc h
    obtain ⟨pair, hp, _⟩ := h
    simp at hp
  | cons pair rest ih =>
    intro acc h
    obtain ⟨p, hp, hlen, h0, h1, hca, hcb⟩ := h
    rcases List.mem_cons.mp hp with rfl | hp2
    · have hkey : poolKey a b ∈ (poolStep headers rows s0 acc p).map Prod.fst := by
        rw [poolStep, if_pos hlen, h0, h1]
        simp only [hca, hcb, Bool.and_self, if_true]
        exact poolInsert_key_mem _ _ _
      exact poolsFold_key_mono headers rows s0 rest _ _ hkey
    · exact ih _ ⟨p, hp2, hlen, h0, h1, hca, hcb⟩

theorem buildPools_key_mem (headers : List String) (rows : List (List String)) (s0 : List String)
    (rels : List (List String)) (a b : String) (h : PairApplied s0 rels a b) :
    poolKey a b ∈ (buildPools headers rows s0 rels).map Prod.fst :=
  poolsFold_key_mem headers rows s0 a b rels [] h

theorem exists_decomp_of_key_mem (l : List (String × List (Option String × Option String)))
    (k : String) (hk : k ∈ l.map Prod.fst) (hnd : (l.map Prod.fst).Nodup) :
    ∃ l1 e l2, l = l1 ++ e :: l2 ∧ e.1 = k ∧ ∀ e2 ∈ l2, e2.1 ≠ k := by
  obtain ⟨e, he, hek⟩ := List.mem_map.mp hk
  obtain ⟨l1, l2, hdec⟩ := List.append_of_mem he
  refine ⟨l1, e, l2, hdec, hek, ?_⟩
  intro e2 he2 hcontra
  rw [hdec, List.map_append, List.map_cons] at hnd
  have h2 := List.Nodup.of_append_right hnd
  have h3 := (List.nodup_cons.mp h2).1
  rw [hek] at h3
  exact h3 (hcontra ▸ List.mem_map_of_mem Prod.fst he2)

/-! ### Unfolding helpers and output-access lemmas -/

theorem mkCtx_headers (csv : String) (cols : List String) (cs : List (String × UserConstraint))
    (rels : List (List String)) (g : Nat → ℚ) :
    (mkCtx csv cols cs rels g).headers = (jsParseCSV csv).headers := rfl

theorem mkCtx_rows (csv : String) (cols : List String) (cs : List (String × UserConstraint))
    (rels : List (List String)) (g : Nat → ℚ) :
    (mkCtx csv cols cs rels g).rows = (jsParseCSV csv).rows := rfl

theorem mkCtx_columns (csv : String) (cols : List String) (cs : List (String × UserConstraint))
    (rels : List (List String)) (g : Nat → ℚ) :
    (mkCtx csv cols cs rels g).columns = (jsParseCSV csv).columns := rfl

theorem mkCtx_mf (csv : String) (cols : List String) (cs : List (String × UserConstraint))
    (rels : List (List String)) (g : Nat → ℚ) :
    (mkCtx csv cols cs rels g).mf =
      numericMetaFn (jsParseCSV csv).columns
        (initialSynthSet (jsParseCSV csv).headers cols) cs := rfl

theorem mkCtx_pools (csv : String) (cols : List String) (cs : List (String × UserConstraint))
    (rels : List (List String)) (g : Nat → ℚ) :
    (mkCtx csv cols cs rels g).pools =
      buildPools (jsParseCSV csv).headers (jsParseCSV csv).rows
        (initialSynthSet (jsParseCSV csv).headers cols) rels := rfl

theorem mkCtx_g (csv : String) (cols : List String) (cs : List (String × UserConstraint))
    (rels : List (List String)) (g : Nat → ℚ) :
    (mkCtx csv cols cs rels g).g = g := rfl

theorem colState_mk_row (r : RowRec) (k : Nat) : (ColState.mk r k).row = r := rfl

theorem rowStep_fst (ctx : GenCtx) (st : GenState) (i : Nat) :
    (rowStep ctx st i).1 =
      ((relFold ctx.g ⟨seedRec ctx.headers (ctx.rows.getD i []), st.set, st.k⟩ ctx.pools).set.foldl
        (colStep ctx.g ctx.columns ctx.mf)
        ⟨(relFold ctx.g ⟨seedRec ctx.headers (ctx.rows.getD i []), st.set, st.k⟩ ctx.pools).row,
         (relFold ctx.g ⟨seedRec ctx.headers (ctx.rows.getD i []), st.set, st.k⟩ ctx.pools).k⟩).row :=
  rfl

theorem rowStep_snd_set (ctx : GenCtx) (st : GenState) (i : Nat) :
    (rowStep ctx st i).2.set =
      (relFold ctx.g ⟨seedRec ctx.headers (ctx.rows.getD i []), st.set, st.k⟩ ctx.pools).set :=
  rfl

theorem generateControlled_assembled_eq (csv : String) (cols : List String)
    (cs : List (String × UserConstraint)) (rels : List (List String)) (n : Nat) (g : Nat → ℚ) :
    (generateControlled csv cols cs rels n g).assembled =
      ((rowsLoop (mkCtx csv cols cs rels g)
        ⟨initialSynthSet (jsParseCSV csv).headers cols, 0⟩ (List.range n)).1).map
        (fun r => (jsParseCSV csv).headers.map (cellOut r)) := rfl

theorem generateControlled_outRows_eq (csv : String) (cols : List String)
    (cs : List (String × UserConstraint)) (rels : List (List String)) (n : Nat) (g : Nat → ℚ) :
    (generateControlled csv cols cs rels n g).outRows =
      (rowsLoop (mkCtx csv cols cs rels g)
        ⟨initialSynthSet (jsParseCSV csv).headers cols, 0⟩ (List.range n)).1 := rfl

theorem generateControlled_headers_eq (csv : String) (cols : List String)
    (cs : List (String × UserConstraint)) (rels : List (List String)) (n : Nat) (g : Nat → ℚ) :
    (generateControlled csv cols cs rels n g).headers = (jsParseCSV csv).headers := rfl

theorem generateControlled_headerLine_eq (csv : String) (cols : List String)
    (cs : List (String × UserConstraint)) (rels : List (List String)) (n : Nat) (g : Nat → ℚ) :
    (generateControlled csv cols cs rels n g).headerLine =
      jsJoin "," (jsParseCSV csv).headers := rfl

theorem cellOut_str (r : RowRec) (h : String) (s : String) (he : r h = some (.str s)) :
    cellOut r h = .str s := by
  unfold cellOut
  rw [he]

theorem cellOut_num (r : RowRec) (h : String) (q : ℚ) (he : r h = some (.num q)) :
    cellOut r h = .num q := by
  unfold cellOut
  rw [he]

/-- Any inspected row of the generator output is the header-ordered
rendering of a `rowStep` applied at some loop state reachable under an
invariant `Q` preserved by the row loop. -/
theorem generated_row (csv : String) (cols : List String) (cs : List (String × UserConstraint))
    (rels : List (List String)) (n : Nat) (g : Nat → ℚ) (Q : GenState → Prop)
    (hQ : ∀ st i, Q st → Q (rowStep (mkCtx csv cols cs rels g) st i).2)
    (hinit : Q ⟨initialSynthSet (jsParseCSV csv).headers cols, 0⟩)
    (i : Nat) (row : List JSVal)
    (hrow : (generateControlled csv cols cs rels n g).assembled.get? i = some row) :
    ∃ st2, Q st2 ∧
      row = (jsParseCSV csv).headers.map
        (cellOut (rowStep (mkCtx csv cols cs rels g) st2 i).1) := by
  rw [generateControlled_assembled_eq, List.get?_map, Option.map_eq_some'] at hrow
  obtain ⟨r, hr, hrw⟩ := hrow
  have hlt : i < (List.range n).length := by
    by_contra hge
    rw [not_lt] at hge
    have : (rowsLoop (mkCtx csv cols cs rels g)
        ⟨initialSynthSet (jsParseCSV csv).headers cols, 0⟩ (List.range n)).1.get? i = none := by
      rw [List.get?_eq_none, rowsLoop_length]
      exact hge
    rw [this] at hr
    exact Option.noConfusion hr
  have hri : (List.range n).get? i = some i := List.get?_range (by simpa using hlt)
  obtain ⟨st2, hst2, hres⟩ := rowsLoop_get (mkCtx csv cols cs rels g) Q hQ (List.range n)
    ⟨initialSynthSet (jsParseCSV csv).headers cols, 0⟩ i i hinit hri
  rw [hres, Option.some_inj] at hr
  exact ⟨st2, hst2, by rw [← hrw, hr]⟩

/-- A list of length two is the list of its first two elements. -/
theorem list_len2 (l : List String) (h : l.length = 2) : l = [l.getD 0 "", l.getD 1 ""] := by
  rcases l with _ | ⟨x, _ | ⟨y, _ | ⟨z, t⟩⟩⟩ <;> simp_all

theorem jsTrim_subset (l : List Char) : ∀ x ∈ jsTrim l, x ∈ l := by
  intro x hx
  unfold jsTrim at hx
  rw [List.mem_reverse] at hx
  have h1 : x ∈ (l.dropWhile Char.isWhitespace).reverse :=
    (List.dropWhile_sublist _).subset hx
  rw [List.mem_reverse] at h1
  exact (List.dropWhile_sublist _).subset h1

theorem parsed_headers_comma_free (csv : String) :
    ∀ h2 ∈ (jsParseCSV csv).headers, ',' ∉ h2.data := by
  intro h2 hmem
  have : (jsParseCSV csv).headers =
      (chSplit ',' ((jsLines csv).getD 0 [])).map (fun c => String.mk (jsTrim c)) := rfl
  rw [this] at hmem
  obtain ⟨p, hp, hpe⟩ := List.mem_map.mp hmem
  intro hc
  rw [← hpe] at hc
  exact chSplit_sep_not_mem ',' _ p hp (jsTrim_subset p ',' hc)

theorem jsJoinFrom_data (sep : String) :
    ∀ (t : List String) (acc : String),
      (t.foldl (fun a s => a ++ sep ++ s) acc).data =
        acc.data ++ (t.map (fun s => sep.data ++ s.data)).flatten := by
  intro t
  induction t with
  | nil => intro acc; simp
  | cons s t ih =>
    intro acc
    rw [List.foldl_cons, ih, List.map_cons, List.flatten_cons, String.data_append,
      String.data_append]
    simp [List.append_assoc]

theorem chSplit_join (sep : Char) :
    ∀ (ps : List (List Char)) (la : List Char), sep ∉ la → (∀ p ∈ ps, sep ∉ p) →
      chSplit sep (la ++ (ps.map (fun p => sep :: p)).flatten) = la :: ps := by
  intro ps
  induction ps with
  | nil =>
    intro la hla _
    rw [List.map_nil, List.flatten_nil, List.append_nil, chSplit_no_sep sep la hla]
  | cons p ps ih =>
    intro la hla hps
    rw [List.map_cons, List.flatten_cons,
      show la ++ ((sep :: p) ++ (ps.map (fun q => sep :: q)).flatten) =
      la ++ sep :: (p ++ (ps.map (fun q => sep :: q)).flatten) from by simp,
      chSplit_append_sep sep la _ hla,
      ih p (hps p (List.mem_cons_self p ps)) (fun q hq => hps q (List.mem_cons_of_mem p hq))]

theorem headerLine_roundtrip (csv : String) (cols : List String)
    (cs : List (String × UserConstraint)) (rels : List (List String)) (n : Nat) (g : Nat → ℚ) :
    chSplit ',' (generateControlled csv cols cs rels n g).headerLine.data =
      (jsParseCSV csv).headers.map String.data := by
  rw [generateControlled_headerLine_eq]
  rcases hh : (jsParseCSV csv).headers with _ | ⟨h, t⟩
  · exact absurd (congrArg (List.map String.data) hh)
      (by
        intro hcon
        have : (jsParseCSV csv).headers ≠ [] := by
          show ((chSplit ',' ((jsLines csv).getD 0 [])).map (fun c => String.mk (jsTrim c))) ≠ []
          simp [List.map_eq_nil]
          exact chSplit_ne_nil ',' _
        exact this hh)
  · have hfree := parsed_headers_comma_free csv
    rw [hh] at hfree
    rw [jsJoin, jsJoinFrom_data, List.map_cons]
    have hcomma : ("," : String).data = [','] := rfl
    have hmapeq : t.map (fun s => ("," : String).data ++ s.data) =
        (t.map String.data).map (fun p => ',' :: p) := by
      rw [List.map_map]
      apply List.map_congr_left
      intro s _
      rw [hcomma]
      rfl
    rw [hmapeq, chSplit_join ',' (t.map String.data) h.data
      (hfree h (List.mem_cons_self h t))
      (by
        intro p hp
        obtain ⟨s, hs, hse⟩ := List.mem_map.mp hp
        rw [← hse]
        exact hfree s (List.mem_cons_of_mem h hs))]

theorem colValue_num (mf : String → Option NumericMeta) (col : Column) (name : String)
    (rv : ℚ) (m : NumericMeta) (hm : mf name = some m) (hn : col.numeric = true) :
    colValue mf col name rv = .num (numValue m rv) := by
  unfold colValue
  rw [hm, hn]
  rfl

theorem colValue_cat (mf : String → Option NumericMeta) (col : Column) (name : String)
    (rv : ℚ) (hn : col.numeric = false) (hne : jsUniq col.values ≠ []) :
    colValue mf col name rv = catValue col rv := by
  have hbr : catBranch col rv = catValue col rv := by
    cases hu : jsUniq col.values with
    | nil => exact absurd hu hne
    | cons x xs =>
      unfold catBranch
      rw [hu]
      simp
  unfold colValue
  cases hmf : mf name with
  | none => exact hbr
  | some m2 => simp [hn, hbr]

theorem catValue_mem (col : Column) (rv : ℚ) (h0 : 0 ≤ rv) (h1 : rv < 1)
    (hne : jsUniq col.values ≠ []) (hfull : none ∉ col.values) :
    ∃ s, catValue col rv = .str s ∧ some s ∈ col.values := by
  have hlen : 0 < (jsUniq col.values).length := by
    rcases hu : jsUniq col.values with _ | ⟨x, xs⟩
    · exact absurd hu hne
    · simp
  have hidx : jsFloorIdx rv (jsUniq col.values).length < (jsUniq col.values).length :=
    jsFloorIdx_lt _ _ h0 h1 hlen
  have hmem : (jsUniq col.values).getD (jsFloorIdx rv (jsUniq col.values).length) none ∈
      jsUniq col.values := getD_mem _ _ _ hidx
  have hmem2 : (jsUniq col.values).getD (jsFloorIdx rv (jsUniq col.values).length) none ∈
      col.values := mem_of_mem_jsUniq _ _ hmem
  rcases hv : (jsUniq col.values).getD (jsFloorIdx rv (jsUniq col.values).length) none with _ | s
  · rw [hv] at hmem2
    exact absurd hmem2 hfull
  · refine ⟨s, ?_, by rw [← hv]; exact hmem2⟩
    unfold catValue
    rw [hv]
    rfl

/-! ### Claim theorems -/

/-- C4: the controlled fallback's synthetic table has exactly
`targetRowCount` data rows; its header line is the source headers joined
by commas in source order (and splits back to exactly them), and every
data row lists its cells in source header order. -/
theorem controlled_output_shape (csv : String) (cols : List String)
    (cs : List (String × UserConstraint)) (rels : List (List String)) (n : Nat) (g : Nat → ℚ) :
    (generateControlled csv cols cs rels n g).assembled.length = n ∧
    (generateControlled csv cols cs rels n g).headers = (jsParseCSV csv).headers ∧
    chSplit ',' (generateControlled csv cols cs rels n g).headerLine.data =
      (jsParseCSV csv).headers.map String.data ∧
    (∀ i row, (generateControlled csv cols cs rels n g).assembled.get? i = some row →
      ∃ r, (generateControlled csv cols cs rels n g).outRows.get? i = some r ∧
        row = (jsParseCSV csv).headers.map (cellOut r)) ∧
    (∀ row ∈ (generateControlled csv cols cs rels n g).assembled,
      row.length = (jsParseCSV csv).headers.length) := by
  refine ⟨?_, rfl, headerLine_roundtrip csv cols cs rels n g, ?_, ?_⟩
  · rw [generateControlled_assembled_eq, List.length_map, rowsLoop_length, List.length_range]
  · intro i row hrow
    rw [generateControlled_assembled_eq, List.get?_map, Option.map_eq_some'] at hrow
    obtain ⟨r, hr, hrw⟩ := hrow
    exact ⟨r, hr, hrw.symm⟩
  · intro row hrow
    rw [generateControlled_assembled_eq] at hrow
    obtain ⟨r, _, hrw⟩ := List.mem_map.mp hrow
    rw [← hrw, List.length_map]

/-- C4 witness: the spec's three-row scenario produces exactly three
data rows. -/
theorem controlled_output_shape_witness :
    (generateControlled "name,age\nAlice,30\nBob,40\nCarol,50" ["age"]
      [("age", ⟨some (.jnum 25), some (.jnum 60)⟩)] [] 3 (fun _ => 1/2)).assembled.length = 3 :=
  (controlled_output_shape "name,age\nAlice,30\nBob,40\nCarol,50" ["age"]
    [("age", ⟨some (.jnum 25), some (.jnum 60)⟩)] [] 3 (fun _ => 1/2)).1

/-- C9: the fallback evaluator returns one fixed report — scores 95/92,
KS 0.02, correlation distance 0.05, empty distribution data, fixed
matrices — with only `columnNames` (first two numeric column names)
depending on the input, and it never reads the synthetic rows. -/
theorem jsEvaluate_constant_report (columns : List Column) (synth synth2 : List RowRec) :
    jsEvaluate columns synth =
      { privacyScore := 95, utilityScore := 92, ksTestScore := 2 / 100
        correlationDistance := 5 / 100, distributionData := []
        correlationData :=
          { originalCorr := [[1, 7 / 10], [7 / 10, 1]]
            syntheticCorr := [[1, 68 / 100], [68 / 100, 1]]
            columnNames := ((columns.filter (fun c => c.numeric)).take 2).map (fun c => c.name) } } ∧
    jsEvaluate columns synth = jsEvaluate columns synth2 :=
  ⟨rfl, rfl⟩

/-- C5 (amended): the fallback evaluator's utility and privacy scores
are fixed constants (92 and 95) independent of both input tables, so
they are not (non-constant) functions of any divergence. -/
theorem jsEvaluate_scores_fixed (c1 : List Column) (s1 : List RowRec) (c2 : List Column)
    (s2 : List RowRec) :
    (jsEvaluate c1 s1).utilityScore = (jsEvaluate c2 s2).utilityScore ∧
    (jsEvaluate c1 s1).privacyScore = (jsEvaluate c2 s2).privacyScore ∧
    (jsEvaluate c1 s1).utilityScore = 92 ∧ (jsEvaluate c1 s1).privacyScore = 95 ∧
    (jsEvaluate c1 s1).ksTestScore = 2 / 100 ∧
    (jsEvaluate c1 s1).correlationDistance = 5 / 100 :=
  ⟨rfl, rfl, rfl, rfl, rfl, rfl⟩

/-- C5 counterexample: two different inputs (an empty profile set versus
a numeric column) receive identical utility and privacy scores, so the
scores are constants rather than monotone functions of divergence. -/
theorem jsEvaluate_scores_counterexample :
    (jsEvaluate [] []).utilityScore =
      (jsEvaluate [⟨"v", true, [some "1", some "1000000"]⟩] []).utilityScore ∧
    (jsEvaluate [] []).privacyScore =
      (jsEvaluate [⟨"v", true, [some "1", some "1000000"]⟩] []).privacyScore ∧
    ([] : List Column) ≠ [⟨"v", true, [some "1", some "1000000"]⟩] :=
  ⟨rfl, rfl, by with_unfolding_all decide⟩

/-- C8: a caller-supplied constraint whose `min` (resp. `max`) field is
absent or not a number leaves the effective bound at the observed
minimum (resp. maximum). -/
theorem constraint_bounds_fallback (cs : List (String × UserConstraint)) (col : Column) :
    ((∀ q : ℚ, ((lookupC cs col.name).getD ⟨none, none⟩).min ≠ some (JsonNum.jnum q)) →
      (metaOf cs col).min = observedMin col) ∧
    ((∀ q : ℚ, ((lookupC cs col.name).getD ⟨none, none⟩).max ≠ some (JsonNum.jnum q)) →
      (metaOf cs col).max = observedMax col) := by
  constructor
  · intro h
    show (match ((lookupC cs col.name).getD ⟨none, none⟩).min with
      | some (.jnum q) => q | _ => observedMin col) = observedMin col
    rcases hm : ((lookupC cs col.name).getD ⟨none, none⟩).min with _ | j
    · rfl
    · cases j with
      | jnum q => exact absurd hm (h q)
      | jother => rfl
  · intro h
    show (match ((lookupC cs col.name).getD ⟨none, none⟩).max with
      | some (.jnum q) => q | _ => observedMax col) = observedMax col
    rcases hm : ((lookupC cs col.name).getD ⟨none, none⟩).max with _ | j
    · rfl
    · cases j with
      | jnum q => exact absurd hm (h q)
      | jother => rfl

/-- C8 witness: a constraint carrying a non-numeric `min` and no `max`
falls back to the observed bounds 2 and 5. -/
theorem constraint_bounds_fallback_witness :
    (metaOf [("a", ⟨some JsonNum.jother, none⟩)] ⟨"a", true, [some "2", some "5"]⟩).min = 2 ∧
    (metaOf [("a", ⟨some JsonNum.jother, none⟩)] ⟨"a", true, [some "2", some "5"]⟩).max = 5 := by
  have h := constraint_bounds_fallback [("a", ⟨some JsonNum.jother, none⟩)]
    ⟨"a", true, [some "2", some "5"]⟩
  constructor
  · exact (h.1 (fun q hq => by
      have h2 : some JsonNum.jother = some (JsonNum.jnum q) := hq
      simp at h2)).trans (by with_unfolding_all decide)
  · exact (h.2 (fun q hq => by
      have h2 : (none : Option JsonNum) = some (JsonNum.jnum q) := hq
      simp at h2)).trans (by with_unfolding_all decide)

/-- C10: because output rows are assembled by looking up each header
name in a record, two positions bearing the same header name always
hold the same cell in every synthesized row. -/
theorem duplicate_headers_same_cell (csv : String) (cols : List String)
    (cs : List (String × UserConstraint)) (rels : List (List String)) (n : Nat) (g : Nat → ℚ)
    (i : Nat) (row : List JSVal) (p1 p2 : Nat)
    (hrow : (generateControlled csv cols cs rels n g).assembled.get? i = some row)
    (hname : (jsParseCSV csv).headers.get? p1 = (jsParseCSV csv).headers.get? p2) :
    row.get? p1 = row.get? p2 := by
  rw [generateControlled_assembled_eq, List.get?_map, Option.map_eq_some'] at hrow
  obtain ⟨r, _, hrw⟩ := hrow
  rw [← hrw, List.get?_map, List.get?_map, hname]

/-- C10 witness: with duplicated header `a` over source row `1,2`, both
output positions hold the same cell (the value stored last, `2`). -/
theorem duplicate_headers_same_cell_witness :
    ((generateControlled "a,a\n1,2" [] [] [] 1 (fun _ => 0)).assembled.getD 0 []).get? 0 =
      ((generateControlled "a,a\n1,2" [] [] [] 1 (fun _ => 0)).assembled.getD 0 []).get? 1 ∧
    ((generateControlled "a,a\n1,2" [] [] [] 1 (fun _ => 0)).assembled.getD 0 []).get? 0 =
      some (JSVal.str "2") := by
  refine ⟨?_, by with_unfolding_all decide⟩
  exact duplicate_headers_same_cell "a,a\n1,2" [] [] [] 1 (fun _ => 0) 0
    ((generateControlled "a,a\n1,2" [] [] [] 1 (fun _ => 0)).assembled.getD 0 [])
    0 1 (by with_unfolding_all decide) (by with_unfolding_all decide)

/-- C1 (amended): for a selected numeric column untouched by relations,
every synthesized cell is a number within the effective bounds —
provided the bounds are ordered and lie on the rounding grid (integers
when the observed-integrality flag is set, multiples of 0.001
otherwise) — and is an integer whenever that flag is set. -/
theorem controlled_numeric_bounds (csv : String) (cols : List String)
    (cs : List (String × UserConstraint)) (rels : List (List String)) (n : Nat) (g : Nat → ℚ)
    (hg : ∀ k, 0 ≤ g k ∧ g k < 1)
    (c : String) (col : Column) (m : NumericMeta)
    (hmem : c ∈ initialSynthSet (jsParseCSV csv).headers cols)
    (hcol : (jsParseCSV csv).columns.find? (fun x => x.name = c) = some col)
    (hnum : col.numeric = true)
    (hm : numericMetaFn (jsParseCSV csv).columns
      (initialSynthSet (jsParseCSV csv).headers cols) cs c = some m)
    (hrel : ∀ e ∈ buildPools (jsParseCSV csv).headers (jsParseCSV csv).rows
        (initialSynthSet (jsParseCSV csv).headers cols) rels,
      keyA e.1 ≠ c ∧ keyB e.1 ≠ c)
    (hle : m.min ≤ m.max)
    (hint : m.int = true → m.min.den = 1 ∧ m.max.den = 1)
    (hflt : m.int = false → (m.min * 1000).den = 1 ∧ (m.max * 1000).den = 1) :
    ∀ (i : Nat) (row : List JSVal),
      (generateControlled csv cols cs rels n g).assembled.get? i = some row →
      ∀ j, (jsParseCSV csv).headers.get? j = some c →
      ∃ q, row.get? j = some (JSVal.num q) ∧ m.min ≤ q ∧ q ≤ m.max ∧
        (m.int = true → q.den = 1) := by
  have hpools : ∀ e ∈ (mkCtx csv cols cs rels g).pools, keyA e.1 ≠ c ∧ keyB e.1 ≠ c := hrel
  intro i row hrow j hj
  obtain ⟨st2, hQ2, hrw⟩ := generated_row csv cols cs rels n g
    (fun st => c ∈ st.set ∧ st.set.Nodup)
    (fun st i2 hst => by
      show c ∈ (rowStep (mkCtx csv cols cs rels g) st i2).2.set ∧
        (rowStep (mkCtx csv cols cs rels g) st i2).2.set.Nodup
      rw [rowStep_snd_set]
      exact ⟨relFold_mem_set _ c _ _ hst.1 (fun e he _ => hpools e he),
        relFold_nodup _ _ _ hst.2⟩)
    ⟨hmem, nodup_jsUniq _⟩ i row hrow
  have hmf : (mkCtx csv cols cs rels g).mf c = some m := hm
  have hfind : (mkCtx csv cols cs rels g).columns.find? (fun x => x.name = c) = some col := hcol
  have hcrel : c ∈ (relFold (mkCtx csv cols cs rels g).g
      ⟨seedRec (mkCtx csv cols cs rels g).headers
        ((mkCtx csv cols cs rels g).rows.getD i []), st2.set, st2.k⟩
      (mkCtx csv cols cs rels g).pools).set :=
    relFold_mem_set _ c _ _ hQ2.1 (fun e he _ => hpools e he)
  have hnd : (relFold (mkCtx csv cols cs rels g).g
      ⟨seedRec (mkCtx csv cols cs rels g).headers
        ((mkCtx csv cols cs rels g).rows.getD i []), st2.set, st2.k⟩
      (mkCtx csv cols cs rels g).pools).set.Nodup :=
    relFold_nodup _ _ _ hQ2.2
  obtain ⟨k2, hk2⟩ := colFold_mem (mkCtx csv cols cs rels g).g
    (mkCtx csv cols cs rels g).columns (mkCtx csv cols cs rels g).mf _ _ c col hcrel hnd hfind
  have hval : (rowStep (mkCtx csv cols cs rels g) st2 i).1 c =
      some (JSVal.num (numValue m ((mkCtx csv cols cs rels g).g k2))) := by
    rw [rowStep_fst, hk2, colValue_num _ _ _ _ m hmf hnum]
  refine ⟨numValue m ((mkCtx csv cols cs rels g).g k2), ?_,
    numValue_bounds m ((mkCtx csv cols cs rels g).g k2) (hg k2).1 (hg k2).2 hle hint hflt⟩
  rw [hrw, List.get?_map, hj, Option.map_some']
  rw [cellOut_num _ _ _ hval]

/-- C1 witness: with the spec's `age` scenario and the midpoint random
stream, the synthesized age cell is an integer within the bounds. -/
theorem controlled_numeric_bounds_witness :
    (generateControlled "name,age\nAlice,30\nBob,40\nCarol,50" ["age"]
      [("age", ⟨some (.jnum 25), some (.jnum 60)⟩)] [] 3 (fun _ => 1/2)).assembled.get? 0 =
      some [JSVal.str "Alice", JSVal.num 43] ∧
    ∃ q, ([JSVal.str "Alice", JSVal.num 43].get? 1 = some (JSVal.num q)) ∧
      (25 : ℚ) ≤ q ∧ q ≤ 60 ∧ q.den = 1 := by
  have hrow : (generateControlled "name,age\nAlice,30\nBob,40\nCarol,50" ["age"]
      [("age", ⟨some (.jnum 25), some (.jnum 60)⟩)] [] 3 (fun _ => 1/2)).assembled.get? 0 =
      some [JSVal.str "Alice", JSVal.num 43] := by with_unfolding_all decide
  refine ⟨hrow, ?_⟩
  obtain ⟨q, h1, h2, h3, h4⟩ := controlled_numeric_bounds
    "name,age\nAlice,30\nBob,40\nCarol,50" ["age"]
    [("age", ⟨some (.jnum 25), some (.jnum 60)⟩)] [] 3 (fun _ => 1/2)
    (fun k => ⟨by norm_num, by norm_num⟩)
    "age" ⟨"age", true, [some "30", some "40", some "50"]⟩ ⟨25, 60, true⟩
    (by with_unfolding_all decide) (by with_unfolding_all decide)
    (by with_unfolding_all decide) (by with_unfolding_all decide)
    (by intro e he; simp [buildPools, poolStep] at he)
    (by with_unfolding_all decide) (fun _ => by with_unfolding_all decide)
    (fun h => by simp at h)
    0 [JSVal.str "Alice", JSVal.num 43] hrow 1 (by with_unfolding_all decide)
  exact ⟨q, h1, h2, h3, h4 rfl⟩

set_option maxRecDepth 4000 in
/-- C1 counterexample: an integer-flagged column (observed values 1, 2)
with the numeric user constraint `min = 0.4` has effective bounds
`[0.4, 2]`, yet integer rounding synthesizes the value `0`, outside the
bounds — refuting unconditional inclusive containment. -/
theorem controlled_numeric_bounds_counterexample :
    numericMetaFn (jsParseCSV "x\n1\n2").columns
      (initialSynthSet (jsParseCSV "x\n1\n2").headers ["x"])
      [("x", ⟨some (.jnum (mkRat 2 5)), none⟩)] "x" = some ⟨mkRat 2 5, 2, true⟩ ∧
    (generateControlled "x\n1\n2" ["x"] [("x", ⟨some (.jnum (mkRat 2 5)), none⟩)] [] 2
      (fun _ => 0)).assembled.getD 0 [] = [JSVal.num 0] ∧
    ¬(mkRat 2 5 ≤ (0 : ℚ)) ∧
    (∀ k : Nat, (0 : ℚ) ≤ (fun _ => (0 : ℚ)) k ∧ (fun _ => (0 : ℚ)) k < 1) := by
  refine ⟨by with_unfolding_all decide, by with_unfolding_all decide, by norm_num [mkRat],
    fun k => ⟨le_refl 0, by norm_num⟩⟩

set_option maxRecDepth 4000 in
/-- C6: a column that is not selected for synthesis and is not written
by any relation entry is passed through unchanged from source row `i`
(missing cells becoming the empty string), position-for-position when
its name is unique among the headers. -/
theorem controlled_passthrough (csv : String) (cols : List String)
    (cs : List (String × UserConstraint)) (rels : List (List String)) (n : Nat) (g : Nat → ℚ)
    (name : String)
    (hns : name ∉ initialSynthSet (jsParseCSV csv).headers cols)
    (hrel : ∀ e ∈ buildPools (jsParseCSV csv).headers (jsParseCSV csv).rows
        (initialSynthSet (jsParseCSV csv).headers cols) rels,
      keyA e.1 ≠ name ∧ keyB e.1 ≠ name)
    (hcount : (jsParseCSV csv).headers.countP (fun h2 => h2 = name) = 1) :
    ∀ (i : Nat) (row : List JSVal),
      (generateControlled csv cols cs rels n g).assembled.get? i = some row →
      ∀ j, (jsParseCSV csv).headers.get? j = some name →
      row.get? j = some (JSVal.str (((jsParseCSV csv).rows.getD i []).getD j "")) := by
  have hpools : ∀ e ∈ (mkCtx csv cols cs rels g).pools,
      keyA e.1 ≠ name ∧ keyB e.1 ≠ name := hrel
  intro i row hrow j hj
  obtain ⟨st2, hQ2, hrw⟩ := generated_row csv cols cs rels n g
    (fun st => ∀ x ∈ st.set, x ∈ initialSynthSet (jsParseCSV csv).headers cols)
    (fun st i2 hst => by
      show ∀ x ∈ (rowStep (mkCtx csv cols cs rels g) st i2).2.set,
        x ∈ initialSynthSet (jsParseCSV csv).headers cols
      rw [rowStep_snd_set]
      intro x hx
      exact hst x (relFold_set_sub _ _ _ x hx))
    (fun x hx => hx) i row hrow
  have hnotin : name ∉ (relFold (mkCtx csv cols cs rels g).g
      ⟨seedRec (mkCtx csv cols cs rels g).headers
        ((mkCtx csv cols cs rels g).rows.getD i []), st2.set, st2.k⟩
      (mkCtx csv cols cs rels g).pools).set := by
    intro hmem
    exact hns (hQ2 name (relFold_set_sub _ _ _ name hmem))
  have hj2 : (mkCtx csv cols cs rels g).headers.get? j = some name := hj
  have hcount2 : (mkCtx csv cols cs rels g).headers.countP (fun h2 => h2 = name) = 1 := hcount
  have hval : (rowStep (mkCtx csv cols cs rels g) st2 i).1 name =
      some (JSVal.str (((mkCtx csv cols cs rels g).rows.getD i []).getD j "")) := by
    rw [rowStep_fst, colFold_not_mem _ _ _ _ _ name hnotin, colState_mk_row,
      relFold_row_preserved _ name _ _ (fun e he => hpools e he)]
    exact seedRec_unique _ _ j name hj2 hcount2
  rw [hrw, List.get?_map, hj, Option.map_some']
  rw [cellOut_str _ _ _ hval]
  rfl

/-- C6 witness: the spec scenario — only `age` selected — passes the
`name` column through: output row 0 holds `Alice`. -/
theorem controlled_passthrough_witness :
    (generateControlled "name,age\nAlice,30\nBob,40\nCarol,50" ["age"]
      [("age", ⟨some (.jnum 25), some (.jnum 60)⟩)] [] 3 (fun _ => 1/2)).assembled.get? 0 =
      some [JSVal.str "Alice", JSVal.num 43] ∧
    [JSVal.str "Alice", JSVal.num 43].get? 0 =
      some (JSVal.str (((jsParseCSV "name,age\nAlice,30\nBob,40\nCarol,50").rows.getD 0
        []).getD 0 "")) := by
  have hrow : (generateControlled "name,age\nAlice,30\nBob,40\nCarol,50" ["age"]
      [("age", ⟨some (.jnum 25), some (.jnum 60)⟩)] [] 3 (fun _ => 1/2)).assembled.get? 0 =
      some [JSVal.str "Alice", JSVal.num 43] := by with_unfolding_all decide
  refine ⟨hrow, ?_⟩
  exact controlled_passthrough "name,age\nAlice,30\nBob,40\nCarol,50" ["age"]
    [("age", ⟨some (.jnum 25), some (.jnum 60)⟩)] [] 3 (fun _ => 1/2) "name"
    (by with_unfolding_all decide)
    (by intro e he; simp [buildPools, poolStep] at he)
    (by with_unfolding_all decide) 0 [JSVal.str "Alice", JSVal.num 43] hrow 0
    (by with_unfolding_all decide)

set_option maxRecDepth 4000 in
/-- C3 (amended): for a selected categorical column with a non-empty
pool and no missing cells (every source row reaches that column), every
synthesized cell is one of the column's distinct observed non-empty
values. -/
theorem controlled_categorical_member (csv : String) (cols : List String)
    (cs : List (String × UserConstraint)) (rels : List (List String)) (n : Nat) (g : Nat → ℚ)
    (hg : ∀ k, 0 ≤ g k ∧ g k < 1)
    (c : String) (col : Column)
    (hmem : c ∈ initialSynthSet (jsParseCSV csv).headers cols)
    (hcol : (jsParseCSV csv).columns.find? (fun x => x.name = c) = some col)
    (hnum : col.numeric = false)
    (hpool : jsUniq col.values ≠ [])
    (hfull : none ∉ col.values)
    (hrel : ∀ e ∈ buildPools (jsParseCSV csv).headers (jsParseCSV csv).rows
        (initialSynthSet (jsParseCSV csv).headers cols) rels,
      keyA e.1 ≠ c ∧ keyB e.1 ≠ c) :
    ∀ (i : Nat) (row : List JSVal),
      (generateControlled csv cols cs rels n g).assembled.get? i = some row →
      ∀ j, (jsParseCSV csv).headers.get? j = some c →
      ∃ s, row.get? j = some (JSVal.str s) ∧ some s ∈ col.values := by
  have hpools : ∀ e ∈ (mkCtx csv cols cs rels g).pools, keyA e.1 ≠ c ∧ keyB e.1 ≠ c := hrel
  intro i row hrow j hj
  obtain ⟨st2, hQ2, hrw⟩ := generated_row csv cols cs rels n g
    (fun st => c ∈ st.set ∧ st.set.Nodup)
    (fun st i2 hst => by
      show c ∈ (rowStep (mkCtx csv cols cs rels g) st i2).2.set ∧
        (rowStep (mkCtx csv cols cs rels g) st i2).2.set.Nodup
      rw [rowStep_snd_set]
      exact ⟨relFold_mem_set _ c _ _ hst.1 (fun e he _ => hpools e he),
        relFold_nodup _ _ _ hst.2⟩)
    ⟨hmem, nodup_jsUniq _⟩ i row hrow
  have hfind : (mkCtx csv cols cs rels g).columns.find? (fun x => x.name = c) = some col := hcol
  have hcrel : c ∈ (relFold (mkCtx csv cols cs rels g).g
      ⟨seedRec (mkCtx csv cols cs rels g).headers
        ((mkCtx csv cols cs rels g).rows.getD i []), st2.set, st2.k⟩
      (mkCtx csv cols cs rels g).pools).set :=
    relFold_mem_set _ c _ _ hQ2.1 (fun e he _ => hpools e he)
  have hnd : (relFold (mkCtx csv cols cs rels g).g
      ⟨seedRec (mkCtx csv cols cs rels g).headers
        ((mkCtx csv cols cs rels g).rows.getD i []), st2.set, st2.k⟩
      (mkCtx csv cols cs rels g).pools).set.Nodup :=
    relFold_nodup _ _ _ hQ2.2
  obtain ⟨k2, hk2⟩ := colFold_mem (mkCtx csv cols cs rels g).g
    (mkCtx csv cols cs rels g).columns (mkCtx csv cols cs rels g).mf _ _ c col hcrel hnd hfind
  obtain ⟨s, hs, hsmem⟩ := catValue_mem col ((mkCtx csv cols cs rels g).g k2)
    (hg k2).1 (hg k2).2 hpool hfull
  have hval : (rowStep (mkCtx csv cols cs rels g) st2 i).1 c = some (JSVal.str s) := by
    rw [rowStep_fst, hk2, colValue_cat _ _ _ _ hnum hpool]
    rw [hs]
  refine ⟨s, ?_, hsmem⟩
  rw [hrw, List.get?_map, hj, Option.map_some']
  rw [cellOut_str _ _ _ hval]

/-- C3 witness: synthesizing the categorical `name` column of the spec
scenario yields an observed name (`Bob` under the midpoint stream). -/
theorem controlled_categorical_member_witness :
    (generateControlled "name,age\nAlice,30\nBob,40\nCarol,50" ["name"] [] [] 3
      (fun _ => 1/2)).assembled.get? 0 = some [JSVal.str "Bob", JSVal.str "30"] ∧
    ∃ s, ([JSVal.str "Bob", JSVal.str "30"].get? 0 = some (JSVal.str s)) ∧
      some s ∈ [some "Alice", some "Bob", some "Carol"] := by
  have hrow : (generateControlled "name,age\nAlice,30\nBob,40\nCarol,50" ["name"] [] [] 3
      (fun _ => 1/2)).assembled.get? 0 = some [JSVal.str "Bob", JSVal.str "30"] := by
    with_unfolding_all decide
  refine ⟨hrow, ?_⟩
  obtain ⟨s, h1, h2⟩ := controlled_categorical_member
    "name,age\nAlice,30\nBob,40\nCarol,50" ["name"] [] [] 3 (fun _ => 1/2)
    (fun k => ⟨by norm_num, by norm_num⟩)
    "name" ⟨"name", false, [some "Alice", some "Bob", some "Carol"]⟩
    (by with_unfolding_all decide) (by with_unfolding_all decide)
    (by with_unfolding_all decide) (by with_unfolding_all decide)
    (by with_unfolding_all decide)
    (by intro e he; simp [buildPools, poolStep] at he)
    0 [JSVal.str "Bob", JSVal.str "30"] hrow 0 (by with_unfolding_all decide)
  exact ⟨s, h1, h2⟩

set_option maxRecDepth 4000 in
/-- C3 counterexample: a ragged table (`a,b` with second row `2` only)
puts an `undefined` marker in column `b`'s pool; the draw can hit it and
synthesize the empty string, which is not an observed non-empty value. -/
theorem controlled_categorical_member_counterexample :
    (jsParseCSV "a,b\n1,x\n2").columns.find? (fun x => x.name = "b") =
      some ⟨"b", false, [some "x", none]⟩ ∧
    (generateControlled "a,b\n1,x\n2" ["b"] [] [] 2 (fun _ => 1/2)).assembled.getD 0 [] =
      [JSVal.str "1", JSVal.str ""] ∧
    some "" ∉ [some "x", (none : Option String)] ∧
    (∀ k : Nat, (0 : ℚ) ≤ (fun _ => (1 : ℚ)/2) k ∧ (fun _ => (1 : ℚ)/2) k < 1) := by
  refine ⟨by with_unfolding_all decide, by with_unfolding_all decide, by with_unfolding_all decide, fun k => ⟨by norm_num, by norm_num⟩⟩

/-- C2 (amended): for a relation pair `[a, b]` with both distinct,
pipe-free columns in the synthesize-set, with a non-empty source table,
and with no other honored relation pair touching `a` or `b`, every
output row carries at `a` and `b` a jointly drawn pair from the observed
`(a, b)` pairs of the source table; the relation columns are deleted
from the synthesize-set, so the per-column step never overwrites them. -/
theorem controlled_relation_joint (csv : String) (cols : List String)
    (cs : List (String × UserConstraint)) (rels : List (List String)) (n : Nat) (g : Nat → ℚ)
    (hg : ∀ k, 0 ≤ g k ∧ g k < 1)
    (a b : String) (hab : a ≠ b)
    (hpair : [a, b] ∈ rels)
    (hca : (initialSynthSet (jsParseCSV csv).headers cols).contains a = true)
    (hcb : (initialSynthSet (jsParseCSV csv).headers cols).contains b = true)
    (hpf : ∀ pair ∈ rels, ∀ nm ∈ pair, '|' ∉ nm.data)
    (hdisj : ∀ pair ∈ rels, pair.length = 2 →
      (initialSynthSet (jsParseCSV csv).headers cols).contains (pair.getD 0 "") = true →
      (initialSynthSet (jsParseCSV csv).headers cols).contains (pair.getD 1 "") = true →
      ¬(pair.getD 0 "" = a ∧ pair.getD 1 "" = b) →
      pair.getD 0 "" ≠ a ∧ pair.getD 0 "" ≠ b ∧ pair.getD 1 "" ≠ a ∧ pair.getD 1 "" ≠ b)
    (hrows : (jsParseCSV csv).rows ≠ []) :
    ∀ (i : Nat) (row : List JSVal),
      (generateControlled csv cols cs rels n g).assembled.get? i = some row →
      ∀ ja jb, (jsParseCSV csv).headers.get? ja = some a →
        (jsParseCSV csv).headers.get? jb = some b →
      ∃ p ∈ mkPool (jsParseCSV csv).headers (jsParseCSV csv).rows a b,
        row.get? ja = some (optStr p.1) ∧ row.get? jb = some (optStr p.2) := by
  intro i row hrow ja jb hja hjb
  obtain ⟨st2, _, hrw⟩ := generated_row csv cols cs rels n g (fun _ => True)
    (fun _ _ _ => trivial) trivial i row hrow
  have hpfa : '|' ∉ a.data := hpf [a, b] hpair a (List.mem_cons_self a [b])
  have hpfb : '|' ∉ b.data :=
    hpf [a, b] hpair b (List.mem_cons_of_mem a (List.mem_cons_self b []))
  have hPA : PairApplied (initialSynthSet (jsParseCSV csv).headers cols) rels a b :=
    ⟨[a, b], hpair, rfl, rfl, rfl, hca, hcb⟩
  have hkey := buildPools_key_mem (jsParseCSV csv).headers (jsParseCSV csv).rows
    (initialSynthSet (jsParseCSV csv).headers cols) rels a b hPA
  have hnodup := buildPools_nodup_keys (jsParseCSV csv).headers (jsParseCSV csv).rows
    (initialSynthSet (jsParseCSV csv).headers cols) rels
  obtain ⟨l1, e, l2, hdec, hek, hl2⟩ := exists_decomp_of_key_mem _ _ hkey hnodup
  have hemem : e ∈ buildPools (jsParseCSV csv).headers (jsParseCSV csv).rows
      (initialSynthSet (jsParseCSV csv).headers cols) rels := by
    rw [hdec]
    exact List.mem_append.mpr (Or.inr (List.mem_cons_self e l2))
  obtain ⟨a2, b2, ⟨pair2, hp2mem, hp2len, hp20, hp21, hp2ca, hp2cb⟩, hee⟩ :=
    buildPools_shape _ _ _ _ e hemem
  have hp2eq : pair2 = [a2, b2] := by rw [list_len2 pair2 hp2len, hp20, hp21]
  have hpfa2 : '|' ∉ a2.data :=
    hpf pair2 hp2mem a2 (by rw [hp2eq]; exact List.mem_cons_self _ _)
  have hpfb2 : '|' ∉ b2.data :=
    hpf pair2 hp2mem b2 (by rw [hp2eq]; exact List.mem_cons_of_mem _ (List.mem_cons_self _ _))
  have hkeq : poolKey a2 b2 = poolKey a b := by
    have he1 : e.1 = poolKey a2 b2 := by rw [hee]
    rw [← he1, hek]
  obtain ⟨haa, hbb⟩ := poolKey_inj hpfa2 hpfb2 hpfa hpfb hkeq
  subst haa
  subst hbb
  have hkA : keyA e.1 = a2 := by rw [hee]; exact (keyA_poolKey a2 b2 hpfa2 hpfb2).1
  have hkB : keyB e.1 = b2 := by rw [hee]; exact (keyA_poolKey a2 b2 hpfa2 hpfb2).2
  have hne : e.2 ≠ [] := by
    rw [hee]
    show mkPool _ _ a2 b2 ≠ []
    unfold mkPool
    rw [Ne, List.map_eq_nil]
    exact hrows
  have h2cond : ∀ e2 ∈ l2, keyA e2.1 ≠ keyA e.1 ∧ keyA e2.1 ≠ keyB e.1 ∧
      keyB e2.1 ≠ keyA e.1 ∧ keyB e2.1 ≠ keyB e.1 := by
    intro e2 he2
    have he2mem : e2 ∈ buildPools (jsParseCSV csv).headers (jsParseCSV csv).rows
        (initialSynthSet (jsParseCSV csv).headers cols) rels := by
      rw [hdec]
      exact List.mem_append.mpr (Or.inr (List.mem_cons_of_mem e he2))
    obtain ⟨a3, b3, ⟨pair3, hp3mem, hp3len, hp30, hp31, hc3a, hc3b⟩, he2e⟩ :=
      buildPools_shape _ _ _ _ e2 he2mem
    have hp3eq : pair3 = [a3, b3] := by rw [list_len2 pair3 hp3len, hp30, hp31]
    have hpfa3 : '|' ∉ a3.data :=
      hpf pair3 hp3mem a3 (by rw [hp3eq]; exact List.mem_cons_self _ _)
    have hpfb3 : '|' ∉ b3.data :=
      hpf pair3 hp3mem b3 (by rw [hp3eq]; exact List.mem_cons_of_mem _ (List.mem_cons_self _ _))
    have hkA3 : keyA e2.1 = a3 := by rw [he2e]; exact (keyA_poolKey a3 b3 hpfa3 hpfb3).1
    have hkB3 : keyB e2.1 = b3 := by rw [he2e]; exact (keyA_poolKey a3 b3 hpfa3 hpfb3).2
    have hne3 : ¬(a3 = a2 ∧ b3 = b2) := by
      rintro ⟨rfl, rfl⟩
      exact hl2 e2 he2 (by rw [he2e])
    have hd := hdisj pair3 hp3mem hp3len (by rw [hp30]; exact hc3a) (by rw [hp31]; exact hc3b)
      (by rw [hp30, hp31]; exact hne3)
    rw [hp30, hp31] at hd
    exact ⟨by rw [hkA3, hkA]; exact hd.1, by rw [hkA3, hkB]; exact hd.2.1,
      by rw [hkB3, hkA]; exact hd.2.2.1, by rw [hkB3, hkB]; exact hd.2.2.2⟩
  have hab2 : keyA e.1 ≠ keyB e.1 := by rw [hkA, hkB]; exact hab
  obtain ⟨p, hp, hra, hrb, hsa, hsb⟩ := relFold_applied (mkCtx csv cols cs rels g).g
    (fun k => hg k) l1 l2 e
    ⟨seedRec (mkCtx csv cols cs rels g).headers ((mkCtx csv cols cs rels g).rows.getD i []),
      st2.set, st2.k⟩ hne hab2 h2cond
  rw [hkA] at hra hsa
  rw [hkB] at hrb hsb
  have hpoolseq : (mkCtx csv cols cs rels g).pools = l1 ++ e :: l2 := hdec
  have hrowa : (rowStep (mkCtx csv cols cs rels g) st2 i).1 a2 = some (optStr p.1) := by
    rw [rowStep_fst, hpoolseq, colFold_not_mem _ _ _ _ _ a2 hsa, colState_mk_row]
    exact hra
  have hrowb : (rowStep (mkCtx csv cols cs rels g) st2 i).1 b2 = some (optStr p.2) := by
    rw [rowStep_fst, hpoolseq, colFold_not_mem _ _ _ _ _ b2 hsb, colState_mk_row]
    exact hrb
  refine ⟨p, ?_, ?_, ?_⟩
  · have he2 : e.2 = mkPool (jsParseCSV csv).headers (jsParseCSV csv).rows a2 b2 := by
      rw [hee]
    rw [← he2]
    exact hp
  · rw [hrw, List.get?_map, hja, Option.map_some', cellOut_str _ _ _ hrowa]
    rfl
  · rw [hrw, List.get?_map, hjb, Option.map_some', cellOut_str _ _ _ hrowb]
    rfl

set_option maxRecDepth 4000 in
/-- C2 witness: the spec's country-code/name scenario — every output row
holds one of the two observed joint pairs; under the zero stream row 0
is `(US, United States)`. -/
theorem controlled_relation_joint_witness :
    (generateControlled "country_code,country_name\nUS,United States\nFR,France"
      ["country_code", "country_name"] [] [["country_code", "country_name"]] 2
      (fun _ => 0)).assembled.get? 0 =
      some [JSVal.str "US", JSVal.str "United States"] ∧
    ∃ p ∈ mkPool (jsParseCSV "country_code,country_name\nUS,United States\nFR,France").headers
      (jsParseCSV "country_code,country_name\nUS,United States\nFR,France").rows
      "country_code" "country_name",
      ([JSVal.str "US", JSVal.str "United States"].get? 0 = some (optStr p.1)) ∧
      ([JSVal.str "US", JSVal.str "United States"].get? 1 = some (optStr p.2)) := by
  have hrow : (generateControlled "country_code,country_name\nUS,United States\nFR,France"
      ["country_code", "country_name"] [] [["country_code", "country_name"]] 2
      (fun _ => 0)).assembled.get? 0 =
      some [JSVal.str "US", JSVal.str "United States"] := by with_unfolding_all decide
  refine ⟨hrow, ?_⟩
  exact controlled_relation_joint "country_code,country_name\nUS,United States\nFR,France"
    ["country_code", "country_name"] [] [["country_code", "country_name"]] 2 (fun _ => 0)
    (fun k => ⟨le_refl 0, by norm_num⟩)
    "country_code" "country_name" (by with_unfolding_all decide)
    (by with_unfolding_all decide) (by with_unfolding_all decide)
    (by with_unfolding_all decide) (by with_unfolding_all decide)
    (by with_unfolding_all decide) (by with_unfolding_all decide)
    0 [JSVal.str "US", JSVal.str "United States"] hrow 0 1
    (by with_unfolding_all decide) (by with_unfolding_all decide)

set_option maxRecDepth 4000 in
/-- C2 counterexample: with overlapping relation pairs `[x,y]` and
`[y,z]` (all three columns selected), the second pair overwrites `y`, so
row 0 carries the joint pair `("1","5")` for `(x,y)`, which is not among
the observed `(x,y)` pairs — refuting the claim as stated. -/
theorem controlled_relation_joint_counterexample :
    (["x", "y"] ∈ ([["x", "y"], ["y", "z"]] : List (List String))) ∧
    (initialSynthSet (jsParseCSV "x,y,z\n1,2,3\n4,5,6").headers
      ["x", "y", "z"]).contains "x" = true ∧
    (initialSynthSet (jsParseCSV "x,y,z\n1,2,3\n4,5,6").headers
      ["x", "y", "z"]).contains "y" = true ∧
    (generateControlled "x,y,z\n1,2,3\n4,5,6" ["x", "y", "z"] [] [["x", "y"], ["y", "z"]] 2
      (fun k => if k % 2 = 1 then 1/2 else 0)).assembled.getD 0 [] =
      [JSVal.str "1", JSVal.str "5", JSVal.str "6"] ∧
    (∀ p ∈ mkPool (jsParseCSV "x,y,z\n1,2,3\n4,5,6").headers
        (jsParseCSV "x,y,z\n1,2,3\n4,5,6").rows "x" "y",
      ¬(optStr p.1 = JSVal.str "1" ∧ optStr p.2 = JSVal.str "5")) := by
  refine ⟨by with_unfolding_all decide, by with_unfolding_all decide,
    by with_unfolding_all decide, by with_unfolding_all decide, by with_unfolding_all decide⟩

/-- C7: the analyzer's constraint suggestions — the `/year/i` special
case takes precedence and clamps the observed integer range into
`[max 1900 ⌊min⌋, min 2025 ⌈max⌉]`; otherwise numeric columns suggest
the observed range typed `int` exactly when both observed bounds are
integral, and non-numeric columns suggest `categorical` with no range. -/
theorem analyze_suggestions (csv : String) (j : Nat) (d : DtypeEntry)
    (hd : (analyzeDataset csv).get? j = some d) :
    (jsParseCSV csv).headers.get? j = some d.name ∧
    d.dtype = d.suggestions.type ∧
    (yearTest d.name = true →
      d.suggestions.type = "int" ∧
      ((colCells (jsParseCSV csv).rows j).filterMap numOf ≠ [] →
        ∃ mn mx, mn ∈ (colCells (jsParseCSV csv).rows j).filterMap numOf ∧
          (∀ x ∈ (colCells (jsParseCSV csv).rows j).filterMap numOf, mn ≤ x) ∧
          mx ∈ (colCells (jsParseCSV csv).rows j).filterMap numOf ∧
          (∀ x ∈ (colCells (jsParseCSV csv).rows j).filterMap numOf, x ≤ mx) ∧
          d.suggestions.min = some ((Max.max 1900 ⌊mn⌋ : ℤ) : ℚ) ∧
          d.suggestions.max = some ((Min.min 2025 ⌈mx⌉ : ℤ) : ℚ))) ∧
    (yearTest d.name = false →
      ((colCells (jsParseCSV csv).rows j).take 200).all (fun v => (numOf v).isSome) = true →
      ((colCells (jsParseCSV csv).rows j).filterMap numOf ≠ [] →
        ∃ mn mx, mn ∈ (colCells (jsParseCSV csv).rows j).filterMap numOf ∧
          (∀ x ∈ (colCells (jsParseCSV csv).rows j).filterMap numOf, mn ≤ x) ∧
          mx ∈ (colCells (jsParseCSV csv).rows j).filterMap numOf ∧
          (∀ x ∈ (colCells (jsParseCSV csv).rows j).filterMap numOf, x ≤ mx) ∧
          d.suggestions.type = (if mn.den == 1 && mx.den == 1 then "int" else "float") ∧
          d.suggestions.min = some mn ∧ d.suggestions.max = some mx)) ∧
    (yearTest d.name = false →
      ((colCells (jsParseCSV csv).rows j).take 200).all (fun v => (numOf v).isSome) = false →
      d.suggestions = ⟨"categorical", none, none⟩) := by
  unfold analyzeDataset at hd
  rw [List.get?_map, List.get?_enum] at hd
  rcases hh : (jsParseCSV csv).headers.get? j with _ | h
  · rw [hh] at hd
    simp at hd
  · rw [hh] at hd
    simp only [Option.map_some', Option.some_inj] at hd
    subst hd
    refine ⟨rfl, rfl, ?_, ?_, ?_⟩
    · intro hyear
      show (analyzeColumn h (colCells (jsParseCSV csv).rows j)).type = "int" ∧ _
      unfold analyzeColumn
      rw [hyear]
      simp only [if_true]
      refine ⟨trivial, ?_⟩
      intro hne
      refine ⟨jsMinD ((colCells (jsParseCSV csv).rows j).filterMap numOf) 1900,
        jsMaxD ((colCells (jsParseCSV csv).rows j).filterMap numOf) 2025,
        (jsMinD_spec _ _ hne).1, (jsMinD_spec _ _ hne).2,
        (jsMaxD_spec _ _ hne).1, (jsMaxD_spec _ _ hne).2, rfl, rfl⟩
    · intro hyear hnum
      show ((colCells (jsParseCSV csv).rows j).filterMap numOf ≠ [] → _)
      intro hne
      refine ⟨jsMinD ((colCells (jsParseCSV csv).rows j).filterMap numOf) 0,
        jsMaxD ((colCells (jsParseCSV csv).rows j).filterMap numOf) 1,
        (jsMinD_spec _ _ hne).1, (jsMinD_spec _ _ hne).2,
        (jsMaxD_spec _ _ hne).1, (jsMaxD_spec _ _ hne).2, ?_, ?_, ?_⟩ <;>
      · show _ = _
        unfold analyzeColumn
        rw [hyear, hnum]
        simp
    · intro hyear hnum
      show analyzeColumn h (colCells (jsParseCSV csv).rows j) = ⟨"categorical", none, none⟩
      unfold analyzeColumn
      rw [hyear, hnum]
      simp

set_option maxRecDepth 4000 in
/-- C7 witness: a `birth_year` column with values 1995 and 2003 gets the
clamped int suggestion `[1995, 2003]`. -/
theorem analyze_suggestions_witness :
    (analyzeDataset "birth_year\n1995\n2003").get? 0 =
      some ⟨"birth_year", "int", ⟨"int", some 1995, some 2003⟩⟩ ∧
    (colCells (jsParseCSV "birth_year\n1995\n2003").rows 0).filterMap numOf =
      [1995, 2003] ∧
    ∃ mn mx, mn ∈ (colCells (jsParseCSV "birth_year\n1995\n2003").rows 0).filterMap numOf ∧
      (∀ x ∈ (colCells (jsParseCSV "birth_year\n1995\n2003").rows 0).filterMap numOf, mn ≤ x) ∧
      mx ∈ (colCells (jsParseCSV "birth_year\n1995\n2003").rows 0).filterMap numOf ∧
      (∀ x ∈ (colCells (jsParseCSV "birth_year\n1995\n2003").rows 0).filterMap numOf, x ≤ mx) ∧
      (⟨"birth_year", "int", ⟨"int", some 1995, some 2003⟩⟩ : DtypeEntry).suggestions.min =
        some ((Max.max 1900 ⌊mn⌋ : ℤ) : ℚ) ∧
      (⟨"birth_year", "int", ⟨"int", some 1995, some 2003⟩⟩ : DtypeEntry).suggestions.max =
        some ((Min.min 2025 ⌈mx⌉ : ℤ) : ℚ) := by
  have hd : (analyzeDataset "birth_year\n1995\n2003").get? 0 =
      some ⟨"birth_year", "int", ⟨"int", some 1995, some 2003⟩⟩ := by
    with_unfolding_all decide
  refine ⟨hd, by with_unfolding_all decide, ?_⟩
  have h := analyze_suggestions "birth_year\n1995\n2003" 0
    ⟨"birth_year", "int", ⟨"int", some 1995, some 2003⟩⟩ hd
  exact (h.2.2.1 (by with_unfolding_all decide)).2 (by with_unfolding_all decide)

end DataMimic
